import Mathlib

/-!
Verification of the order-management backend (Express/Mongoose routes over
Order, Product, Brand collections).  The definitions below are a shallow
embedding of the route handlers in src/routes and src/unnamed; theorems
check the specification's claims against them.
-/

set_option linter.unusedVariables false

namespace Backend

/-! ### Data model (src/models/Order.js, Product.js, Brand.js) -/

/-- `unit` enum of the embedded order-item schema: ['Pc', 'Outer', 'Case']. -/
inductive UnitType : Type
  | Pc
  | Outer
  | Case
deriving DecidableEq, Repr

/-- `status` enum of the order schema: ['Pending', 'Completed']. -/
inductive OrderStatus : Type
  | Pending
  | Completed
deriving DecidableEq, Repr

/-- Embedded order-item schema (`orderItemSchema`).  `productId` is an
ObjectId in the source; ObjectIds are modelled as natural numbers. -/
structure OrderItem where
  productId : Nat
  productName : String
  brandName : String
  unit : UnitType
  quantity : Nat
deriving DecidableEq, Repr

/-- Order document (`orderSchema`).  `id` models the Mongo `_id`;
`date` keeps the stored DD/MM/YYYY string. -/
structure Order where
  id : Nat
  orderNumber : String
  counterName : String
  bit : String
  status : OrderStatus
  date : String
  time : String
  totalItems : Int
  totalAmount : Int
  items : List OrderItem
deriving DecidableEq, Repr

/-! ### Pending-demand aggregation (GET /api/orders/pending-items)

Two implementations exist in the repository: an in-memory fold over the
pending orders (src/routes/orders.js lines 43-107) and a MongoDB
aggregation pipeline (src/unnamed/part_001 lines 45-127).  Both are
embedded below.  The JS `Map` keyed by the string
`productId + "_" + unit` is modelled as an insertion-ordered association
list keyed by the pair `(productId, unit)` (the string key is injective
in those two components, since an ObjectId's hex digits never contain
an underscore). -/

/-- One value of the in-memory `itemsMap` / one `$group` result row. -/
structure PendingGroup where
  productId : Nat
  productName : String
  brandName : String
  unit : UnitType
  totalQuantity : Nat
  orderCount : Nat
  orderNumbers : List String
deriving DecidableEq, Repr

abbrev GroupMap := List ((Nat × UnitType) × PendingGroup)

/-- Body of the inner `forEach` of the in-memory implementation
(src/routes/orders.js lines 53-76): update the existing map entry for
the key `(productId, unit)` or insert a fresh one. -/
def mapStep (orderNumber : String) (m : GroupMap) (it : OrderItem) : GroupMap :=
  let key := (it.productId, it.unit)
  match m.find? (fun e => decide (e.1 = key)) with
  | some e =>
      let ex := e.2
      let ex2 : PendingGroup :=
        { ex with
          totalQuantity := ex.totalQuantity + it.quantity
          orderCount := ex.orderCount + 1
          orderNumbers :=
            if orderNumber ∈ ex.orderNumbers then ex.orderNumbers
            else ex.orderNumbers ++ [orderNumber] }
      m.map (fun e2 => if e2.1 = key then (key, ex2) else e2)
  | none =>
      m ++ [(key,
        { productId := it.productId
          productName := it.productName
          brandName := it.brandName
          unit := it.unit
          totalQuantity := it.quantity
          orderCount := 1
          orderNumbers := [orderNumber] })]

/-- One step of the `$group` stage of the pipeline implementation
(src/unnamed/part_001 lines 64-77) on an unwound `(orderNumber, item)`
row: `$sum` quantity, `$sum: 1` order count, `$addToSet` order number,
`$first` for the descriptive fields. -/
def groupStep (m : GroupMap) (row : String × OrderItem) : GroupMap :=
  let key := (row.2.productId, row.2.unit)
  match m.find? (fun e => decide (e.1 = key)) with
  | some e =>
      let g := e.2
      let g2 : PendingGroup :=
        { g with
          totalQuantity := g.totalQuantity + row.2.quantity
          orderCount := g.orderCount + 1
          orderNumbers :=
            if row.1 ∈ g.orderNumbers then g.orderNumbers
            else g.orderNumbers ++ [row.1] }
      m.map (fun e2 => if e2.1 = key then (key, g2) else e2)
  | none =>
      m ++ [(key,
        { productId := row.2.productId
          productName := row.2.productName
          brandName := row.2.brandName
          unit := row.2.unit
          totalQuantity := row.2.quantity
          orderCount := 1
          orderNumbers := [row.1] })]

/-- The comparator `(a, b) => b.totalQuantity - a.totalQuantity` used by
both implementations to sort each unit bucket descending. -/
def qtyGt (a b : PendingGroup) : Prop := b.totalQuantity < a.totalQuantity

instance : DecidableRel qtyGt := fun a b =>
  inferInstanceAs (Decidable (b.totalQuantity < a.totalQuantity))

/-- `items` object of the response: the three unit buckets. -/
structure ByUnit where
  Pc : List PendingGroup
  Outer : List PendingGroup
  Case : List PendingGroup
deriving DecidableEq, Repr

/-- `totals` object of the response. -/
structure Totals where
  Pc : Nat
  Outer : Nat
  Case : Nat
  totalItems : Nat
  totalOrders : Nat
deriving DecidableEq, Repr

structure PendingItemsResult where
  items : ByUnit
  totals : Totals
deriving DecidableEq, Repr

/-- `Order.find({ status: 'Pending' })` of the in-memory implementation. -/
def pendingOrdersOf (orders : List Order) : List Order :=
  orders.filter (fun o => decide (o.status = OrderStatus.Pending))

/-- The `itemsMap` built by the two nested `forEach` loops of the
in-memory implementation (src/routes/orders.js lines 49-78). -/
def itemsMapOf (orders : List Order) : GroupMap :=
  (pendingOrdersOf orders).foldl
    (fun m o =>
      if o.items.isEmpty then m
      else o.items.foldl (fun m2 it => mapStep o.orderNumber m2 it) m)
    []

/-- The `groupedByUnit` object: filter each unit and sort descending by
`totalQuantity` (identical code in both implementations:
src/routes/orders.js lines 84-88 and src/unnamed/part_001 lines 101-105). -/
def unitBuckets (allItems : List PendingGroup) : ByUnit :=
  { Pc := List.insertionSort qtyGt (allItems.filter (fun g => decide (g.unit = UnitType.Pc)))
    Outer := List.insertionSort qtyGt (allItems.filter (fun g => decide (g.unit = UnitType.Outer)))
    Case := List.insertionSort qtyGt (allItems.filter (fun g => decide (g.unit = UnitType.Case))) }

/-- The `totals` object: per-bucket `reduce` sums plus the two counts
(identical code in both implementations up to the source of
`totalOrders`). -/
def bucketTotals (b : ByUnit) (totalItems totalOrders : Nat) : Totals :=
  { Pc := b.Pc.foldl (fun sum g => sum + g.totalQuantity) 0
    Outer := b.Outer.foldl (fun sum g => sum + g.totalQuantity) 0
    Case := b.Case.foldl (fun sum g => sum + g.totalQuantity) 0
    totalItems := totalItems
    totalOrders := totalOrders }

/-- In-memory implementation of GET /api/orders/pending-items
(src/routes/orders.js lines 43-107). -/
def pendingItemsInMemory (orders : List Order) : PendingItemsResult :=
  let pendingOrders := pendingOrdersOf orders
  let itemsMap := itemsMapOf orders
  let allItems := itemsMap.map (fun e => e.2)
  let groupedByUnit := unitBuckets allItems
  { items := groupedByUnit
    totals := bucketTotals groupedByUnit allItems.length pendingOrders.length }

/-- The `matchQuery` of the pipeline implementation
(src/unnamed/part_001 lines 50-56): status Pending, plus the optional
`bit` filter and the order-level `items.brandName` filter.  A missing or
empty query parameter, or the value "all", disables the filter. -/
def pipeMatch (bit brand : Option String) (o : Order) : Bool :=
  decide (o.status = OrderStatus.Pending)
  && (match bit with
      | none => true
      | some b => if b = "" ∨ b = "all" then true else decide (o.bit = b))
  && (match brand with
      | none => true
      | some br =>
        if br = "" ∨ br = "all" then true
        else o.items.any (fun it => decide (it.brandName = br)))

/-- The `$match`/`$unwind`/optional second `$match`/`$group` stages of the
pipeline (src/unnamed/part_001 lines 59-92), on a deterministic model of
the store: documents are processed in collection order and `$group`
groups keys in first-occurrence order. -/
def pipelineGroups (orders : List Order) (bit brand : Option String) : GroupMap :=
  let matched := orders.filter (pipeMatch bit brand)
  let rows : List (String × OrderItem) :=
    matched.flatMap (fun o => o.items.map (fun it => (o.orderNumber, it)))
  let rows2 :=
    match brand with
    | none => rows
    | some br =>
      if br = "" ∨ br = "all" then rows
      else rows.filter (fun r => decide (r.2.brandName = br))
  rows2.foldl groupStep []

/-- Aggregation-pipeline implementation of GET /api/orders/pending-items
(src/unnamed/part_001 lines 45-127): the pipeline stages above, then the
same bucketing/sorting tail as the in-memory version and a separate
`countDocuments(matchQuery)` for `totalOrders`. -/
def pendingItemsPipeline (orders : List Order) (bit brand : Option String) :
    PendingItemsResult :=
  let grouped := pipelineGroups orders bit brand
  let itemsWithStringId := grouped.map (fun e => e.2)
  let groupedByUnit := unitBuckets itemsWithStringId
  let totalOrdersCount := (orders.filter (pipeMatch bit brand)).length
  { items := groupedByUnit
    totals := bucketTotals groupedByUnit itemsWithStringId.length totalOrdersCount }

/-! ### Characterization of the grouping fold -/

/-- The grouping key of an unwound `(orderNumber, item)` row. -/
def rowKey (r : String × OrderItem) : Nat × UnitType := (r.2.productId, r.2.unit)

/-- What one finished group says about the rows it was built from. -/
def entrySpec (rs : List (String × OrderItem)) (k : Nat × UnitType)
    (g : PendingGroup) : Prop :=
  g.productId = k.1 ∧ g.unit = k.2 ∧
  g.totalQuantity = ((rs.filter (fun r => decide (rowKey r = k))).map
    (fun r => r.2.quantity)).sum ∧
  g.orderCount = (rs.filter (fun r => decide (rowKey r = k))).length ∧
  g.orderNumbers.Nodup ∧
  (∀ x, x ∈ g.orderNumbers ↔ ∃ r ∈ rs, rowKey r = k ∧ r.1 = x)

/-- Invariant of the grouping fold: keys are distinct, every seen key has
an entry, and every entry matches `entrySpec` for the rows seen so far. -/
def GroupInv (rs : List (String × OrderItem)) (m : GroupMap) : Prop :=
  (m.map Prod.fst).Nodup ∧
  (∀ r ∈ rs, ∃ e ∈ m, e.1 = rowKey r) ∧
  (∀ e ∈ m, entrySpec rs e.1 e.2)

/-- The unwound rows of the pending orders, in collection order. -/
def pendingRowsOf (orders : List Order) : List (String × OrderItem) :=
  (pendingOrdersOf orders).flatMap (fun o => o.items.map (fun it => (o.orderNumber, it)))

/-! ### Concrete instances for the pending-demand claims -/

/-- Concrete pending order whose items mention the same (product, unit)
pair in two separate line entries. -/
def cexOrder : Order :=
  { id := 1
    orderNumber := "ORD-001"
    counterName := "Counter A"
    bit := "Bit 1"
    status := OrderStatus.Pending
    date := "01/01/2025"
    time := "10:00"
    totalItems := 2
    totalAmount := 8
    items := [
      { productId := 1, productName := "ProductA", brandName := "BrandX",
        unit := UnitType.Pc, quantity := 5 },
      { productId := 1, productName := "ProductA", brandName := "BrandX",
        unit := UnitType.Pc, quantity := 3 }] }

/-- Formalization of the claim's description of `orderCount`: the number
of distinct pending orders contributing at least one line item to the
(productId, unit) group. -/
def claimDistinctOrderCount (orders : List Order) (pid : Nat) (u : UnitType) : Nat :=
  (orders.filter (fun o =>
    decide (o.status = OrderStatus.Pending) &&
    o.items.any (fun it => decide (it.productId = pid ∧ it.unit = u)))).length

/-- The single Pc group that `cexOrder` produces. -/
def pcGroupOfCexOrder : PendingGroup :=
  { productId := 1
    productName := "ProductA"
    brandName := "BrandX"
    unit := UnitType.Pc
    totalQuantity := 8
    orderCount := 2
    orderNumbers := ["ORD-001"] }

/-! ### Brands and products (src/models/Brand.js, src/models/Product.js)

The brand/product routes are embedded as pure state transformers on a
`Store` holding the two collections.  ObjectIds are modelled as natural
numbers; the store's primary-key uniqueness is modelled by a freshness
guard on inserts (Mongo never generates a duplicate `_id`). -/

/-- JS `String.prototype.trim`, embedded structurally over the
character list (Lean's own `String.trim` is defined by well-founded
recursion on byte positions and does not evaluate definitionally). -/
def jsTrim (s : String) : String :=
  String.mk (((s.data.dropWhile Char.isWhitespace).reverse.dropWhile
    Char.isWhitespace).reverse)

/-- JS `String.prototype.split` with a single-character separator,
embedded structurally over the character list. -/
def splitChars (c : Char) : List Char → List (List Char)
  | [] => [[]]
  | a :: rest =>
      match splitChars c rest with
      | [] => [[]]
      | g :: gs => if a = c then [] :: g :: gs else (a :: g) :: gs

def splitOnChar (c : Char) (s : String) : List String :=
  (splitChars c s.data).map String.mk

structure Brand where
  id : Nat
  name : String
  productCount : Int
  image : String
  order : Int
deriving DecidableEq, Repr

structure Product where
  id : Nat
  name : String
  brandId : Nat
  brandName : String
  order : Int
deriving DecidableEq, Repr

structure Store where
  brands : List Brand
  products : List Product
deriving DecidableEq, Repr

/-- `Product.countDocuments({ brandId: bid })` over a product list. -/
def trueCountP (ps : List Product) (bid : Nat) : Int :=
  ((ps.filter (fun p => decide (p.brandId = bid))).length : Int)

/-- The true number of products referencing a brand. -/
def trueCount (s : Store) (bid : Nat) : Int := trueCountP s.products bid

/-- Body of the `for` loop of `cleanupEmptyBrands`
(src/routes/brands.js lines 11-23): recount the brand's products, then
delete the brand or sync its stored count. -/
def cleanupStep (st : Store) (b : Brand) : Store :=
  let actualProductCount := (st.products.filter (fun p => decide (p.brandId = b.id))).length
  if actualProductCount = 0 then
    { st with brands := st.brands.filter (fun c => decide (c.id ≠ b.id)) }
  else
    { st with brands := st.brands.map (fun c =>
        if c.id = b.id then { c with productCount := (actualProductCount : Int) } else c) }

/-- `cleanupEmptyBrands` (src/routes/brands.js lines 7-27): fetch the
brands whose stored `productCount` is ≤ 0, then process each. -/
def cleanupEmptyBrands (s : Store) : Store :=
  let emptyBrands := s.brands.filter (fun b => decide (b.productCount ≤ 0))
  emptyBrands.foldl cleanupStep s

/-- POST /api/brands (src/routes/brands.js lines 57-84): reject a
missing name or a duplicate trimmed name, otherwise insert the brand
with `productCount: 0` and the placeholder image fallback (URL encoding
of the name is not modelled). -/
def createBrand (s : Store) (id : Nat) (name image : String) : Store :=
  if name = "" then s
  else if s.brands.any (fun b => decide (b.name = jsTrim name)) then s
  else if s.brands.any (fun b => decide (b.id = id)) then s
  else
    { s with brands := s.brands ++ [{
        id := id
        name := jsTrim name
        productCount := 0
        image := if image = "" then
            "https://via.placeholder.com/100x100?text=" ++ jsTrim name
          else image
        order := 0 }] }

/-- `Brand.findByIdAndUpdate(bid, { $inc: { productCount: 1 } })`, used
verbatim in POST /api/products and PUT /api/products/:id. -/
def incBrandCount (s : Store) (bid : Nat) : Store :=
  { s with brands := s.brands.map (fun b =>
      if b.id = bid then { b with productCount := b.productCount + 1 } else b) }

/-- The decrement-and-cascade step used verbatim in DELETE
/api/products/:id and PUT /api/products/:id:
`findByIdAndUpdate(bid, { $inc: { productCount: -1 } }, { new: true })`
(null if the brand is gone), then `findByIdAndDelete` when the updated
count is ≤ 0. -/
def decBrandCascade (s : Store) (bid : Nat) : Store :=
  match s.brands.find? (fun b => decide (b.id = bid)) with
  | none => s
  | some b =>
      let updatedBrand := { b with productCount := b.productCount - 1 }
      let s2 := { s with brands := s.brands.map (fun c =>
          if c.id = bid then updatedBrand else c) }
      if updatedBrand.productCount ≤ 0 then
        { s2 with brands := s2.brands.filter (fun c => decide (c.id ≠ bid)) }
      else s2

/-- POST /api/products (src/routes/products.js lines 50-81): validate,
check the referenced brand exists, save the product, then `$inc` the
brand's `productCount` by 1. -/
def createProduct (s : Store) (id : Nat) (name : String) (brandId : Nat)
    (brandName : String) : Store :=
  if name = "" ∨ brandName = "" then s
  else
    match s.brands.find? (fun b => decide (b.id = brandId)) with
    | none => s
    | some _ =>
        if s.products.any (fun p => decide (p.id = id)) then s
        else
          incBrandCount
            { s with products := s.products ++ [({
                id := id
                name := jsTrim name
                brandId := brandId
                brandName := jsTrim brandName
                order := 0 } : Product)] }
            brandId

/-- DELETE /api/products/:id (src/routes/products.js lines 168-196):
delete the product, then decrement the owning brand's count and
cascade-delete the brand when the updated count is ≤ 0. -/
def deleteProduct (s : Store) (id : Nat) : Store :=
  match s.products.find? (fun p => decide (p.id = id)) with
  | none => s
  | some product =>
      decBrandCascade
        { s with products := s.products.filter (fun p => decide (p.id ≠ id)) }
        product.brandId

/-- PUT /api/products/:id (src/routes/products.js lines 112-165):
validate, check the (new) brand exists, update the product document,
and if the brand changed decrement the old brand (cascade-deleting it at
count ≤ 0) and increment the new brand. -/
def updateProduct (s : Store) (id : Nat) (name : String) (brandId : Nat)
    (brandName : String) : Store :=
  if name = "" ∨ brandName = "" then s
  else
    match s.brands.find? (fun b => decide (b.id = brandId)) with
    | none => s
    | some _ =>
        match s.products.find? (fun p => decide (p.id = id)) with
        | none => s
        | some product =>
            let s1 := { s with products := s.products.map (fun p =>
                if p.id = id then
                  { p with
                    name := jsTrim name
                    brandId := brandId
                    brandName := jsTrim brandName }
                else p) }
            if product.brandId ≠ brandId then
              incBrandCount (decBrandCascade s1 product.brandId) brandId
            else s1

/-- The document update performed by `Brand.findByIdAndUpdate` in PUT
/api/brands/:id: set `name` to the trimmed name and `image` to the
request image or, when that is absent or empty, the stored one. -/
def brandUpdater (id : Nat) (nm : String) (image : Option String)
    (brand : Brand) (b : Brand) : Brand :=
  if b.id = id then
    { b with
      name := jsTrim nm
      image := match image with
        | some img => if img = "" then brand.image else img
        | none => brand.image }
  else b

/-- PUT /api/brands/:id (src/routes/brands.js lines 115-152): validate
the name, 404 on a missing brand, reject a duplicate trimmed name on a
different brand, otherwise update only `name` and `image` (an absent or
empty image keeps the stored one). -/
def updateBrand (s : Store) (id : Nat) (name : Option String)
    (image : Option String) : Store :=
  match name with
  | none => s
  | some nm =>
      if nm = "" then s
      else
        match s.brands.find? (fun b => decide (b.id = id)) with
        | none => s
        | some brand =>
            match s.brands.find? (fun b => decide (b.name = jsTrim nm ∧ b.id ≠ id)) with
            | some _ => s
            | none =>
                { s with brands := s.brands.map (brandUpdater id nm image brand) }

/-- The brand/product mutations the reconciliation claims quantify over. -/
inductive StoreOp : Type
  | createBrand (id : Nat) (name image : String)
  | createProduct (id : Nat) (name : String) (brandId : Nat) (brandName : String)
  | deleteProduct (id : Nat)
  | updateProduct (id : Nat) (name : String) (brandId : Nat) (brandName : String)
deriving DecidableEq, Repr

def applyOp (s : Store) : StoreOp → Store
  | .createBrand id name image => createBrand s id name image
  | .createProduct id name brandId brandName => createProduct s id name brandId brandName
  | .deleteProduct id => deleteProduct s id
  | .updateProduct id name brandId brandName => updateProduct s id name brandId brandName

/-- Run a sequence of operations from the empty store. -/
def runOps (ops : List StoreOp) : Store := ops.foldl applyOp ⟨[], []⟩

/-! ### The reconciliation invariant -/

/-- Invariant maintained by every complete, sequential brand/product
operation: record ids are unique, every brand's stored `productCount` is
accurate, and every product references an existing brand. -/
def StoreInv (s : Store) : Prop :=
  (s.brands.map Brand.id).Nodup ∧
  (s.products.map Product.id).Nodup ∧
  (∀ b ∈ s.brands, b.productCount = trueCount s b.id) ∧
  (∀ p ∈ s.products, ∃ b ∈ s.brands, b.id = p.brandId)

/-- Concrete store for the C7 witness: one brand with two products. -/
def c7store : Store :=
  ⟨[⟨1, "Acme", 2, "img", 0⟩],
   [⟨10, "Widget", 1, "Acme", 0⟩, ⟨11, "Gadget", 1, "Acme", 0⟩]⟩

/-! ### Retention sweep (POST /api/orders/cleanup/old-completed)

Embedded from src/routes/orders.js lines 335-374.  JS `Date` values are
modelled as minutes since the local epoch; "today" is a day number plus
a minute-of-day, so `thirtyOneDaysAgo` (today minus 31 days, keeping the
time of day) is `(todayDay - 31) * 1440 + todayMinute`, and a parsed
order date `new Date(year, month - 1, day)` is local midnight of its
civil day. -/

/-- JS `parseInt` on the date pieces: leading decimal digits, `NaN`
(modelled as `none`) when there is no leading digit.  The sign and
whitespace handling of full `parseInt` is not needed for date strings. -/
def jsParseInt (s : String) : Option Nat :=
  let ds := s.data.takeWhile (fun c => c.isDigit)
  if ds.isEmpty then none
  else some (ds.foldl (fun n c => n * 10 + (c.toNat - 48)) 0)

/-- Days since 1970-01-01 of a civil date (the value of the JS
`new Date(year, month - 1, day)` divided by one day), via the standard
days-from-civil algorithm.  Exact for valid calendar dates. -/
def civilDays (y m d : Int) : Int :=
  let y2 := if m ≤ 2 then y - 1 else y
  let era := (if 0 ≤ y2 then y2 else y2 - 399) / 400
  let yoe := y2 - era * 400
  let mp := (m + 9) % 12
  let doy := (153 * mp + 2) / 5 + d - 1
  let doe := yoe * 365 + yoe / 4 - yoe / 100 + doy
  era * 146097 + doe - 719468

/-- `const [day, month, year] = order.date.split('/')` followed by the
three `parseInt` calls; `none` models any `NaN` piece (which makes the
JS date Invalid and every comparison on it false). -/
def parseDMY (s : String) : Option (Nat × Nat × Nat) :=
  match splitOnChar '/' s with
  | ds :: ms :: ys :: _ =>
      match jsParseInt ds, jsParseInt ms, jsParseInt ys with
      | some d, some m, some y => some (d, m, y)
      | _, _, _ => none
  | _ => none

/-- The day number of an order's stored DD/MM/YYYY date string. -/
def orderDateDays (s : String) : Option Int :=
  (parseDMY s).map (fun dmy => civilDays (dmy.2.2 : Int) (dmy.2.1 : Int) (dmy.1 : Int))

/-- POST /api/orders/cleanup/old-completed (src/routes/orders.js lines
335-374): fetch the candidate orders, keep those that are Completed and
whose parsed date is on or before `thirtyOneDaysAgo`, then
`deleteMany` on the surviving ids, returning the remaining collection
and the deleted count. -/
def cleanupOldCompleted (orders : List Order) (orderIds : List Nat)
    (todayDay : Int) (todayMinute : Nat) : List Order × Nat :=
  let cutoff : Int := (todayDay - 31) * 1440 + (todayMinute : Int)
  let found := orders.filter (fun o => decide (o.id ∈ orderIds))
  let validOrderIds := (found.filter (fun o =>
      decide (o.status = OrderStatus.Completed) &&
      (match orderDateDays o.date with
       | some d => decide (d * 1440 ≤ cutoff)
       | none => false))).map (fun o => o.id)
  let remaining := orders.filter (fun o => decide (o.id ∉ validOrderIds))
  (remaining, orders.length - remaining.length)

/-! ### Order-number allocation

Two allocator implementations exist: derive-and-retry
(src/routes/orders.js lines 212-261, also src/unnamed/part_002) and
random-with-retry (src/unnamed/part_001 lines 187-291).  The store is
modelled per attempt: `env i` is the set of `orderNumber` values present
when attempt `i` saves, so a unique-index conflict (error code 11000)
happens exactly when the candidate is in `env i`; concurrent writers are
free to change the store between attempts. -/

/-- MongoDB's binary string comparison (code-point order on the char
list), used by `sort({ orderNumber: -1 })`.  Defined structurally
because Lean's own `String` order does not evaluate definitionally. -/
def charListLt : List Char → List Char → Bool
  | [], [] => false
  | [], _ :: _ => true
  | _ :: _, [] => false
  | a :: as, b :: bs =>
      if a.toNat < b.toNat then true
      else if b.toNat < a.toNat then false
      else charListLt as bs

def strLtB (s t : String) : Bool := charListLt s.data t.data

/-- `Order.findOne({}, {}, { sort: { orderNumber: -1 } })`: the stored
order number that is greatest in the string order, if any. -/
def lexMaxOrderNumber (store : List String) : Option String :=
  store.foldl (fun acc s =>
    match acc with
    | none => some s
    | some t => if strLtB t s then some s else some t) none

/-- JS `String(n).padStart(3, '0')`. -/
def padStart3 (s : String) : String :=
  if 3 ≤ s.length then s
  else String.mk (List.replicate (3 - s.length) '0' ++ s.data)

/-- The order-number format: `ORD-` + zero-padded decimal. -/
def fmtOrderNumber (n : Nat) : String := "ORD-" ++ padStart3 (Nat.repr n)

/-- `parseInt(lastOrder.orderNumber.split('-')[1]) + 1`; `none` models
the `NaN` that `parseInt` produces when the suffix is missing or not
numeric (`split('-')[1]` being `undefined` included). -/
def splitSuffixNext (s : String) : Option Nat :=
  match (splitOnChar '-' s).drop 1 with
  | t :: _ => (jsParseInt t).map (fun n => n + 1)
  | [] => none

/-- Lines 220-227 of src/routes/orders.js: `nextNumber` starts at 1 and
is replaced by the parsed suffix plus one when a found order has a
truthy `orderNumber`. -/
def nextNumberJS (store : List String) : Option Nat :=
  match lexMaxOrderNumber store with
  | none => some 1
  | some s =>
      if s = "" then some 1
      else splitSuffixNext s

/-- `ORD-${String(nextNumber).padStart(3, '0')}` (`String(NaN)` is
"NaN"). -/
def formatCandidate : Option Nat → String
  | some n => fmtOrderNumber n
  | none => "ORD-NaN"

/-- The candidate computed by one derive-and-retry attempt. -/
def deriveCandidate (store : List String) : String :=
  formatCandidate (nextNumberJS store)

inductive AllocError : Type
  | exhausted
deriving DecidableEq, Repr

/-- The derive-and-retry loop (maxAttempts = 10): each attempt reads the
store, computes the candidate, and saves; a duplicate-key error retries,
success returns the attempt index and the persisted number.  Running out
of fuel models `throw new Error('Unable to generate unique order
number...')`. -/
def deriveAttempts (env : Nat → List String) :
    Nat → Nat → Except AllocError (Nat × String)
  | 0, _ => .error .exhausted
  | fuel + 1, i =>
      let store := env i
      let c := deriveCandidate store
      if c ∈ store then deriveAttempts env fuel (i + 1)
      else .ok (i, c)

def deriveAlloc (env : Nat → List String) : Except AllocError (Nat × String) :=
  deriveAttempts env 10 0

/-- `generateOrderNumber` of src/unnamed/part_001: `ORD-` + an
8-hex-character token; the random token stream is an input. -/
def generateOrderNumber (token : String) : String := "ORD-" ++ token

/-- The random-with-retry loop (maxAttempts = 5) of
src/unnamed/part_001 lines 245-284. -/
def randomAttempts (env : Nat → List String) (tokens : Nat → String) :
    Nat → Nat → Except AllocError (Nat × String)
  | 0, _ => .error .exhausted
  | fuel + 1, i =>
      let c := generateOrderNumber (tokens i)
      if c ∈ env i then randomAttempts env tokens fuel (i + 1)
      else .ok (i, c)

def randomAlloc (env : Nat → List String) (tokens : Nat → String) :
    Except AllocError (Nat × String) :=
  randomAttempts env tokens 5 0

/-- Formalization of claim C4's candidate formula: one plus the highest
numeric suffix over all stored order numbers, in the `ORD-` format. -/
def numericSuffix (s : String) : Nat :=
  match (splitOnChar '-' s).drop 1 with
  | t :: _ => (jsParseInt t).getD 0
  | [] => 0

def claimNumericCandidate (store : List String) : String :=
  fmtOrderNumber ((store.map numericSuffix).foldl max 0 + 1)

/-- The store holding exactly ORD-001 … ORD-N. -/
def ordSeq (n : Nat) : List String :=
  (List.range n).map (fun i => fmtOrderNumber (i + 1))

/-- A Completed order dated exactly 31 days before the witness "today"
(2025-12-31). -/
def c3order1 : Order :=
  ⟨1, "ORD-001", "C1", "B1", OrderStatus.Completed, "30/11/2025", "10:00", 0, 0, []⟩

/-- A Completed order dated 30 days before the witness "today". -/
def c3order2 : Order :=
  ⟨2, "ORD-002", "C2", "B2", OrderStatus.Completed, "01/12/2025", "10:00", 0, 0, []⟩

/-- A Pending order. -/
def c3order3 : Order :=
  ⟨3, "ORD-003", "C3", "B3", OrderStatus.Pending, "01/01/2025", "10:00", 0, 0, []⟩

/-! ### Theorems: lemmas relating the two aggregation implementations -/


theorem mapStep_eq_groupStep (orderNumber : String) (m : GroupMap) (it : OrderItem) :
    mapStep orderNumber m it = groupStep m (orderNumber, it) := rfl

/-- The nested per-order/per-item fold of the in-memory implementation
equals the flat fold over the unwound `(orderNumber, item)` rows. -/
theorem nested_foldl_eq_rows_foldl (orders : List Order) (init : GroupMap) :
    orders.foldl
      (fun m o =>
        if o.items.isEmpty then m
        else o.items.foldl (fun m2 it => mapStep o.orderNumber m2 it) m)
      init
    = (orders.flatMap (fun o => o.items.map (fun it => (o.orderNumber, it)))).foldl
        groupStep init := by
  induction orders generalizing init with
  | nil => rfl
  | cons o t ih =>
      simp only [List.foldl_cons, List.flatMap_cons, List.foldl_append]
      rw [ih]
      congr 1
      cases h : o.items with
      | nil => simp
      | cons a l =>
          simp only [List.isEmpty_cons, Bool.false_eq_true, if_false, List.foldl_map]
          rfl

theorem pipeMatch_none_none (o : Order) :
    pipeMatch none none o = decide (o.status = OrderStatus.Pending) := by
  simp [pipeMatch]

/-- With no filters the pipeline's `$match`/`$unwind`/`$group` stages build
exactly the in-memory `itemsMap`. -/
theorem pipelineGroups_eq_itemsMap (orders : List Order) :
    pipelineGroups orders none none = itemsMapOf orders := by
  unfold pipelineGroups itemsMapOf pendingOrdersOf
  rw [funext pipeMatch_none_none]
  exact (nested_foldl_eq_rows_foldl _ _).symm

theorem entrySpec_append_ne {rs : List (String × OrderItem)} {k : Nat × UnitType}
    {g : PendingGroup} (r : String × OrderItem)
    (hs : entrySpec rs k g) (hne : rowKey r ≠ k) :
    entrySpec (rs ++ [r]) k g := by
  obtain ⟨h1, h2, h3, h4, h5, h6⟩ := hs
  have hfilter : (rs ++ [r]).filter (fun r2 => decide (rowKey r2 = k))
      = rs.filter (fun r2 => decide (rowKey r2 = k)) := by
    rw [List.filter_append]
    simp [hne]
  refine ⟨h1, h2, ?_, ?_, h5, ?_⟩
  · rw [hfilter]; exact h3
  · rw [hfilter]; exact h4
  · intro x
    rw [h6 x]
    constructor
    · rintro ⟨r2, hr2, hk, hx⟩
      exact ⟨r2, List.mem_append_left _ hr2, hk, hx⟩
    · rintro ⟨r2, hr2, hk, hx⟩
      rcases List.mem_append.mp hr2 with h | h
      · exact ⟨r2, h, hk, hx⟩
      · simp only [List.mem_singleton] at h
        subst h
        exact absurd hk hne

theorem entrySpec_append_match {rs : List (String × OrderItem)}
    {g : PendingGroup} (r : String × OrderItem)
    (hs : entrySpec rs (rowKey r) g) :
    entrySpec (rs ++ [r]) (rowKey r)
      { g with
        totalQuantity := g.totalQuantity + r.2.quantity
        orderCount := g.orderCount + 1
        orderNumbers :=
          if r.1 ∈ g.orderNumbers then g.orderNumbers
          else g.orderNumbers ++ [r.1] } := by
  obtain ⟨h1, h2, h3, h4, h5, h6⟩ := hs
  have hfilter : (rs ++ [r]).filter (fun r2 => decide (rowKey r2 = rowKey r))
      = rs.filter (fun r2 => decide (rowKey r2 = rowKey r)) ++ [r] := by
    rw [List.filter_append]
    simp
  refine ⟨h1, h2, ?_, ?_, ?_, ?_⟩
  · rw [hfilter]
    simp [h3]
  · rw [hfilter]
    simp [h4]
  · by_cases hmem : r.1 ∈ g.orderNumbers
    · simpa [hmem] using h5
    · simp only [hmem, if_false]
      simp [List.nodup_append, h5, hmem]
  · intro x
    by_cases hmem : r.1 ∈ g.orderNumbers
    · simp only [hmem, if_true]
      rw [h6 x]
      constructor
      · rintro ⟨r2, hr2, hk, hx⟩
        exact ⟨r2, List.mem_append_left _ hr2, hk, hx⟩
      · rintro ⟨r2, hr2, hk, hx⟩
        rcases List.mem_append.mp hr2 with h | h
        · exact ⟨r2, h, hk, hx⟩
        · simp only [List.mem_singleton] at h
          subst h
          subst hx
          exact (h6 r2.1).mp hmem
    · simp only [hmem, if_false]
      constructor
      · intro hx
        rcases List.mem_append.mp hx with h | h
        · obtain ⟨r2, hr2, hk, hx2⟩ := (h6 x).mp h
          exact ⟨r2, List.mem_append_left _ hr2, hk, hx2⟩
        · simp only [List.mem_singleton] at h
          subst h
          exact ⟨r, List.mem_append_right _ (List.mem_singleton_self r), rfl, rfl⟩
      · rintro ⟨r2, hr2, hk, hx⟩
        rcases List.mem_append.mp hr2 with h | h
        · exact List.mem_append_left _ ((h6 x).mpr ⟨r2, h, hk, hx⟩)
        · simp only [List.mem_singleton] at h
          subst h
          subst hx
          exact List.mem_append_right _ (List.mem_singleton_self _)

theorem map_fst_update (m : GroupMap) (key : Nat × UnitType) (g2 : PendingGroup) :
    List.map Prod.fst (m.map (fun e2 => if e2.1 = key then (key, g2) else e2))
      = List.map Prod.fst m := by
  rw [List.map_map]
  apply List.map_congr_left
  intro e2 _
  by_cases h2 : e2.1 = key
  · simp [h2]
  · simp [h2]

theorem groupStep_inv {rs : List (String × OrderItem)} {m : GroupMap}
    (r : String × OrderItem) (h : GroupInv rs m) :
    GroupInv (rs ++ [r]) (groupStep m r) := by
  obtain ⟨hnd, hcomp, hspec⟩ := h
  cases hf : m.find? (fun e => decide (e.1 = (r.2.productId, r.2.unit))) with
  | none =>
      have hnone : ∀ e ∈ m, e.1 ≠ rowKey r := by
        intro e he heq
        have h0 := List.find?_eq_none.mp hf e he
        apply h0
        rw [heq]
        simp [rowKey]
      have hrs : ∀ r2 ∈ rs, rowKey r2 ≠ rowKey r := by
        intro r2 hr2 heq
        obtain ⟨e, he, hek⟩ := hcomp r2 hr2
        exact hnone e he (hek.trans heq)
      simp only [groupStep, hf]
      refine ⟨?_, ?_, ?_⟩
      · rw [List.map_append, List.nodup_append]
        refine ⟨hnd, List.nodup_singleton _, ?_⟩
        intro k hk hk2
        simp only [List.map_cons, List.map_nil, List.mem_singleton] at hk2
        obtain ⟨e, he, hek⟩ := List.mem_map.mp hk
        apply hnone e he
        rw [hek, hk2]
        rfl
      · intro r2 hr2
        rcases List.mem_append.mp hr2 with h | h
        · obtain ⟨e, he, hek⟩ := hcomp r2 h
          exact ⟨e, List.mem_append_left _ he, hek⟩
        · simp only [List.mem_singleton] at h
          subst h
          exact ⟨_, List.mem_append_right _ (List.mem_singleton_self _), rfl⟩
      · intro e' he'
        rcases List.mem_append.mp he' with h | h
        · exact entrySpec_append_ne r (hspec e' h) (fun heq => hnone e' h heq.symm)
        · simp only [List.mem_singleton] at h
          subst h
          have hfil : rs.filter (fun r2 => decide (rowKey r2 = rowKey r)) = [] := by
            apply List.filter_eq_nil_iff.mpr
            intro r2 hr2
            simpa using hrs r2 hr2
          have hfil2 : (rs ++ [r]).filter (fun r2 => decide (rowKey r2 = rowKey r)) = [r] := by
            rw [List.filter_append, hfil]
            simp
          refine ⟨rfl, rfl, ?_, ?_, List.nodup_singleton _, ?_⟩
          · show r.2.quantity = _
            rw [show (fun r2 => decide (rowKey r2 = (r.2.productId, r.2.unit)))
                  = (fun r2 => decide (rowKey r2 = rowKey r)) from rfl, hfil2]
            simp
          · show 1 = _
            rw [show (fun r2 => decide (rowKey r2 = (r.2.productId, r.2.unit)))
                  = (fun r2 => decide (rowKey r2 = rowKey r)) from rfl, hfil2]
            rfl
          · intro x
            simp only [List.mem_singleton]
            constructor
            · intro hx
              exact ⟨r, List.mem_append_right _ (List.mem_singleton_self _), rfl, hx.symm⟩
            · rintro ⟨r2, hr2, hk, hx⟩
              rcases List.mem_append.mp hr2 with h | h
              · exact absurd hk (hrs r2 h)
              · simp only [List.mem_singleton] at h
                subst h
                exact hx.symm
  | some e =>
      have hem : e ∈ m := List.mem_of_find?_eq_some hf
      have hek : e.1 = rowKey r := by
        have h0 := List.find?_some hf
        simpa [rowKey] using h0
      simp only [groupStep, hf]
      refine ⟨?_, ?_, ?_⟩
      · rw [map_fst_update]
        exact hnd
      · intro r2 hr2
        rcases List.mem_append.mp hr2 with h | h
        · obtain ⟨e3, he3, hek3⟩ := hcomp r2 h
          refine ⟨_, List.mem_map_of_mem _ he3, ?_⟩
          by_cases h3 : e3.1 = (r.2.productId, r.2.unit)
          · rw [if_pos h3]
            exact h3 ▸ hek3
          · rw [if_neg h3]
            exact hek3
        · simp only [List.mem_singleton] at h
          subst h
          refine ⟨_, List.mem_map_of_mem _ hem, ?_⟩
          have hek2 : e.1 = (r2.2.productId, r2.2.unit) := hek
          rw [if_pos hek2]
          rfl
      · intro e' he'
        obtain ⟨e2, he2, hupd⟩ := List.mem_map.mp he'
        by_cases h2 : e2.1 = (r.2.productId, r.2.unit)
        · rw [if_pos h2] at hupd
          subst hupd
          have hs := hspec e hem
          rw [hek] at hs
          exact entrySpec_append_match r hs
        · rw [if_neg h2] at hupd
          subst hupd
          exact entrySpec_append_ne r (hspec e2 he2) (fun heq => h2 heq.symm)

theorem foldl_groupStep_inv (rows : List (String × OrderItem)) :
    ∀ (rs : List (String × OrderItem)) (m : GroupMap), GroupInv rs m →
      GroupInv (rs ++ rows) (rows.foldl groupStep m) := by
  induction rows with
  | nil =>
      intro rs m h
      simpa using h
  | cons r t ih =>
      intro rs m h
      have h3 := ih (rs ++ [r]) (groupStep m r) (groupStep_inv r h)
      simpa [List.append_assoc] using h3

theorem groupInv_nil : GroupInv [] [] := by
  refine ⟨List.nodup_nil, ?_, ?_⟩ <;> intro x hx <;> cases hx

theorem itemsMap_inv (orders : List Order) :
    GroupInv (pendingRowsOf orders) (itemsMapOf orders) := by
  have h := foldl_groupStep_inv (pendingRowsOf orders) [] [] groupInv_nil
  rw [itemsMapOf, nested_foldl_eq_rows_foldl]
  simpa [pendingRowsOf] using h

theorem mem_bucket_exists_key {orders : List Order} {g : PendingGroup}
    (h : g ∈ (pendingItemsInMemory orders).items.Pc ∨
         g ∈ (pendingItemsInMemory orders).items.Outer ∨
         g ∈ (pendingItemsInMemory orders).items.Case) :
    ∃ k, (k, g) ∈ itemsMapOf orders := by
  have hall : g ∈ (itemsMapOf orders).map (fun e => e.2) := by
    simp only [pendingItemsInMemory, unitBuckets] at h
    rcases h with h | h | h <;>
      exact (List.mem_filter.mp ((List.perm_insertionSort qtyGt _).mem_iff.mp h)).1
  obtain ⟨e, he, hg⟩ := List.mem_map.mp hall
  refine ⟨e.1, ?_⟩
  rw [show (e.1, g) = e from by rw [← hg]]
  exact he

theorem mem_pendingRows {orders : List Order} {r : String × OrderItem} :
    r ∈ pendingRowsOf orders ↔
      ∃ o ∈ orders, o.status = OrderStatus.Pending ∧
        ∃ it ∈ o.items, r = (o.orderNumber, it) := by
  unfold pendingRowsOf pendingOrdersOf
  rw [List.mem_flatMap]
  constructor
  · rintro ⟨o, ho, hr⟩
    obtain ⟨ho1, ho2⟩ := List.mem_filter.mp ho
    obtain ⟨it, hit, heq⟩ := List.mem_map.mp hr
    exact ⟨o, ho1, by simpa using ho2, it, hit, heq.symm⟩
  · rintro ⟨o, ho, hst, it, hit, heq⟩
    refine ⟨o, List.mem_filter.mpr ⟨ho, by simpa using hst⟩, ?_⟩
    rw [heq]
    exact List.mem_map_of_mem _ hit

theorem length_filter_rows (orders : List Order) (p : OrderItem → Bool) :
    ((orders.flatMap (fun o => o.items.map (fun it => (o.orderNumber, it)))).filter
        (fun r => p r.2)).length
      = (orders.flatMap (fun o => o.items)).countP p := by
  induction orders with
  | nil => rfl
  | cons o t ih =>
      simp only [List.flatMap_cons, List.filter_append, List.length_append,
        List.countP_append, ih]
      congr 1
      rw [List.filter_map, List.length_map, List.countP_eq_length_filter]
      apply congrArg
      apply List.filter_congr
      intro it _
      rfl

/-- C1, counterexample: a single pending order carrying the pair
(product 1, Pc) in two separate line entries is reported with
`orderCount = 2`, while the number of distinct contributing pending
orders is 1. -/
theorem C1_counterexample_orderCount :
    ((pendingItemsInMemory [cexOrder]).items.Pc.map (fun g => g.orderCount)) = [2] ∧
    claimDistinctOrderCount [cexOrder] 1 UnitType.Pc = 1 ∧ (2 : Nat) ≠ 1 := by
  decide

/-- C1, amended: in the pending-demand aggregation, every reported
group's `orderCount` equals the number of pending line entries whose
(productId, unit) pair matches the group — an order whose items contain
the same pair in two separate line entries is counted twice. -/
theorem C1_amended_orderCount_counts_line_entries (orders : List Order)
    (g : PendingGroup)
    (h : g ∈ (pendingItemsInMemory orders).items.Pc ∨
         g ∈ (pendingItemsInMemory orders).items.Outer ∨
         g ∈ (pendingItemsInMemory orders).items.Case) :
    g.orderCount = ((pendingOrdersOf orders).flatMap (fun o => o.items)).countP
      (fun it => decide ((it.productId, it.unit) = (g.productId, g.unit))) := by
  obtain ⟨k, hk⟩ := mem_bucket_exists_key h
  obtain ⟨hnd, hcomp, hspec⟩ := itemsMap_inv orders
  obtain ⟨h1, h2, h3, h4, h5, h6⟩ := hspec (k, g) hk
  have hkeq : k = (g.productId, g.unit) := by
    cases k with
    | mk a b =>
        simp only at h1 h2
        rw [h1, h2]
  rw [h4, hkeq]
  rw [show pendingRowsOf orders
      = (pendingOrdersOf orders).flatMap
          (fun o => o.items.map (fun it => (o.orderNumber, it))) from rfl]
  rw [← length_filter_rows]
  apply congrArg
  apply List.filter_congr
  intro r _
  simp [rowKey]

/-- C9: every reported group's `orderNumbers` list is duplicate-free,
contains the order number of every pending order contributing a matching
line entry, and contains nothing else. -/
theorem C9_orderNumbers_distinct_and_complete (orders : List Order)
    (g : PendingGroup)
    (h : g ∈ (pendingItemsInMemory orders).items.Pc ∨
         g ∈ (pendingItemsInMemory orders).items.Outer ∨
         g ∈ (pendingItemsInMemory orders).items.Case) :
    g.orderNumbers.Nodup ∧
    (∀ o ∈ orders, o.status = OrderStatus.Pending →
      (∃ it ∈ o.items, it.productId = g.productId ∧ it.unit = g.unit) →
      o.orderNumber ∈ g.orderNumbers) ∧
    (∀ x ∈ g.orderNumbers, ∃ o ∈ orders, o.status = OrderStatus.Pending ∧
      o.orderNumber = x ∧
      ∃ it ∈ o.items, it.productId = g.productId ∧ it.unit = g.unit) := by
  obtain ⟨k, hk⟩ := mem_bucket_exists_key h
  obtain ⟨hnd, hcomp, hspec⟩ := itemsMap_inv orders
  obtain ⟨h1, h2, h3, h4, h5, h6⟩ := hspec (k, g) hk
  have hkeq : k = (g.productId, g.unit) := by
    cases k with
    | mk a b =>
        simp only at h1 h2
        rw [h1, h2]
  subst hkeq
  refine ⟨h5, ?_, ?_⟩
  · intro o ho hst ⟨it, hit, hpid, hunit⟩
    apply (h6 o.orderNumber).mpr
    refine ⟨(o.orderNumber, it), ?_, ?_, rfl⟩
    · exact mem_pendingRows.mpr ⟨o, ho, hst, it, hit, rfl⟩
    · simp [rowKey, hpid, hunit]
  · intro x hx
    obtain ⟨r, hr, hkr, hx1⟩ := (h6 x).mp hx
    obtain ⟨o, ho, hst, it, hit, heq⟩ := mem_pendingRows.mp hr
    subst heq
    simp only [rowKey] at hkr
    refine ⟨o, ho, hst, hx1, it, hit, ?_, ?_⟩
    · exact congrArg Prod.fst hkr
    · exact congrArg Prod.snd hkr

/-- C1 witness: the amended theorem applied to the concrete store
`[cexOrder]` and its Pc group. -/
theorem C1_amended_witness :
    pcGroupOfCexOrder.orderCount
      = ((pendingOrdersOf [cexOrder]).flatMap (fun o => o.items)).countP
          (fun it => decide ((it.productId, it.unit)
            = (pcGroupOfCexOrder.productId, pcGroupOfCexOrder.unit))) :=
  C1_amended_orderCount_counts_line_entries [cexOrder] pcGroupOfCexOrder
    (Or.inl (by decide))

/-- C9 witness: the theorem applied to the concrete store `[cexOrder]`
and its Pc group. -/
theorem C9_witness :
    pcGroupOfCexOrder.orderNumbers.Nodup ∧
    (∀ o ∈ [cexOrder], o.status = OrderStatus.Pending →
      (∃ it ∈ o.items, it.productId = pcGroupOfCexOrder.productId ∧
        it.unit = pcGroupOfCexOrder.unit) →
      o.orderNumber ∈ pcGroupOfCexOrder.orderNumbers) ∧
    (∀ x ∈ pcGroupOfCexOrder.orderNumbers, ∃ o ∈ [cexOrder],
      o.status = OrderStatus.Pending ∧ o.orderNumber = x ∧
      ∃ it ∈ o.items, it.productId = pcGroupOfCexOrder.productId ∧
        it.unit = pcGroupOfCexOrder.unit) :=
  C9_orderNumbers_distinct_and_complete [cexOrder] pcGroupOfCexOrder
    (Or.inl (by decide))

/-- C6: with no brand or bit filter, the aggregation-pipeline
implementation and the in-memory implementation of the pending-demand
endpoint return equal results (same groups with equal fields, same
descending ordering inside each unit bucket, equal totals). -/
theorem C6_pipeline_eq_inMemory (orders : List Order) :
    pendingItemsPipeline orders none none = pendingItemsInMemory orders := by
  unfold pendingItemsPipeline pendingItemsInMemory
  rw [pipelineGroups_eq_itemsMap]
  unfold pendingOrdersOf
  rw [funext pipeMatch_none_none]

/-! ### Counting lemmas for the brand reconciliation proofs -/

theorem trueCountP_nonneg (ps : List Product) (bid : Nat) : 0 ≤ trueCountP ps bid := by
  unfold trueCountP
  exact_mod_cast Nat.zero_le _

theorem trueCountP_cons (p : Product) (ps : List Product) (bid : Nat) :
    trueCountP (p :: ps) bid
      = (if p.brandId = bid then 1 else 0) + trueCountP ps bid := by
  by_cases h : p.brandId = bid
  · simp [trueCountP, List.filter_cons, h]
    ring
  · simp [trueCountP, List.filter_cons, h]

theorem trueCountP_append (ps qs : List Product) (bid : Nat) :
    trueCountP (ps ++ qs) bid = trueCountP ps bid + trueCountP qs bid := by
  simp [trueCountP, List.filter_append]

theorem trueCountP_single (p : Product) (bid : Nat) :
    trueCountP [p] bid = if p.brandId = bid then 1 else 0 := by
  by_cases h : p.brandId = bid <;> simp [trueCountP, List.filter_cons, h]

/-- Removing the unique product with a given id subtracts its
contribution from every brand's true count. -/
theorem trueCountP_remove {ps : List Product} (hnd : (ps.map Product.id).Nodup)
    {q : Product} (hq : q ∈ ps) (bid : Nat) :
    trueCountP (ps.filter (fun p => decide (p.id ≠ q.id))) bid
      = trueCountP ps bid - (if q.brandId = bid then 1 else 0) := by
  induction ps with
  | nil => cases hq
  | cons a t ih =>
      simp only [List.map_cons, List.nodup_cons] at hnd
      obtain ⟨hh, hnd2⟩ := hnd
      rcases List.mem_cons.mp hq with hqa | hq2
      · subst hqa
        have hfalse : (decide (q.id ≠ q.id)) = false := by simp
        rw [List.filter_cons, hfalse]
        simp only [Bool.false_eq_true, if_false]
        have ht : t.filter (fun p => decide (p.id ≠ q.id)) = t := by
          apply List.filter_eq_self.mpr
          intro p hp
          simp only [decide_eq_true_eq]
          intro hpe
          exact hh (hpe ▸ List.mem_map_of_mem Product.id hp)
        rw [ht, trueCountP_cons]
        ring
      · have hne : a.id ≠ q.id := by
          intro hcontra
          exact hh (hcontra ▸ List.mem_map_of_mem Product.id hq2)
        have htrue : (decide (a.id ≠ q.id)) = true := by simp [hne]
        rw [List.filter_cons, htrue]
        simp only [if_true]
        rw [trueCountP_cons, trueCountP_cons, ih hnd2 hq2]
        ring

/-- Rewriting the unique product with a given id replaces its
contribution by the new one in every brand's true count. -/
theorem trueCountP_update {ps : List Product} (hnd : (ps.map Product.id).Nodup)
    {q : Product} (hq : q ∈ ps) (q2 : Product) (bid : Nat) :
    trueCountP (ps.map (fun p => if p.id = q.id then q2 else p)) bid
      = trueCountP ps bid - (if q.brandId = bid then 1 else 0)
          + (if q2.brandId = bid then 1 else 0) := by
  induction ps with
  | nil => cases hq
  | cons a t ih =>
      simp only [List.map_cons, List.nodup_cons] at hnd
      obtain ⟨hh, hnd2⟩ := hnd
      rcases List.mem_cons.mp hq with hqa | hq2
      · subst hqa
        rw [List.map_cons, if_pos rfl]
        have ht : t.map (fun p => if p.id = q.id then q2 else p) = t := by
          conv_rhs => rw [← List.map_id t]
          apply List.map_congr_left
          intro p hp
          have hne : p.id ≠ q.id := by
            intro hpe
            exact hh (hpe ▸ List.mem_map_of_mem Product.id hp)
          rw [if_neg hne]
          rfl
        rw [ht, trueCountP_cons, trueCountP_cons]
        ring
      · have hne : a.id ≠ q.id := by
          intro hcontra
          exact hh (hcontra ▸ List.mem_map_of_mem Product.id hq2)
        rw [List.map_cons, if_neg hne, trueCountP_cons, trueCountP_cons, ih hnd2 hq2]
        ring

/-- Mapping an id-preserving function over the brands keeps the id list. -/
theorem map_brand_id_of_pointwise (bs : List Brand) (f : Brand → Brand)
    (hf : ∀ b ∈ bs, (f b).id = b.id) :
    (bs.map f).map Brand.id = bs.map Brand.id := by
  rw [List.map_map]
  exact List.map_congr_left hf

theorem map_product_id_of_pointwise (ps : List Product) (f : Product → Product)
    (hf : ∀ p ∈ ps, (f p).id = p.id) :
    (ps.map f).map Product.id = ps.map Product.id := by
  rw [List.map_map]
  exact List.map_congr_left hf

theorem trueCountP_pos_of_mem {ps : List Product} {p : Product} {bid : Nat}
    (hp : p ∈ ps) (hb : p.brandId = bid) : 0 < trueCountP ps bid := by
  unfold trueCountP
  have hm : p ∈ ps.filter (fun p2 => decide (p2.brandId = bid)) :=
    List.mem_filter.mpr ⟨hp, by simp [hb]⟩
  exact_mod_cast List.length_pos.mpr (List.ne_nil_of_mem hm)

theorem trueCount_brands_irrel (s : Store) (bs : List Brand) (bid : Nat) :
    trueCount { s with brands := bs } bid = trueCount s bid := rfl

theorem storeInv_empty : StoreInv ⟨[], []⟩ := by
  refine ⟨List.nodup_nil, List.nodup_nil, ?_, ?_⟩ <;> intro x hx <;> cases hx

theorem incBrandCount_spec (s : Store) (bid : Nat)
    (hbnd : (s.brands.map Brand.id).Nodup)
    (hpnd : (s.products.map Product.id).Nodup)
    (hcnt : ∀ b ∈ s.brands,
      b.productCount + (if b.id = bid then 1 else 0) = trueCount s b.id)
    (href : ∀ p ∈ s.products, ∃ b ∈ s.brands, b.id = p.brandId) :
    StoreInv (incBrandCount s bid) := by
  refine ⟨?_, hpnd, ?_, ?_⟩
  · rw [show (incBrandCount s bid).brands = s.brands.map (fun b =>
        if b.id = bid then { b with productCount := b.productCount + 1 } else b)
        from rfl]
    rw [map_brand_id_of_pointwise]
    · exact hbnd
    · intro b hb
      by_cases h : b.id = bid <;> simp [h]
  · intro b hb
    obtain ⟨b0, hb0, hb0e⟩ := List.mem_map.mp hb
    have hc := hcnt b0 hb0
    by_cases h : b0.id = bid
    · rw [if_pos h] at hb0e
      subst hb0e
      rw [if_pos h] at hc
      exact hc
    · rw [if_neg h] at hb0e
      subst hb0e
      rw [if_neg h, add_zero] at hc
      exact hc
  · intro p hp
    obtain ⟨b, hb, hbe⟩ := href p hp
    refine ⟨if b.id = bid then { b with productCount := b.productCount + 1 } else b,
      List.mem_map_of_mem _ hb, ?_⟩
    by_cases h : b.id = bid
    · rw [if_pos h]
      exact hbe
    · rw [if_neg h]
      exact hbe

theorem decBrandCascade_spec (s : Store) (bid : Nat) (dlt : Nat → Int)
    (hbnd : (s.brands.map Brand.id).Nodup)
    (hcnt : ∀ b ∈ s.brands,
      b.productCount = trueCount s b.id + (if b.id = bid then 1 else 0) + dlt b.id)
    (hdlt : dlt bid = 0)
    (href : ∀ p ∈ s.products, ∃ b ∈ s.brands, b.id = p.brandId) :
    (decBrandCascade s bid).products = s.products ∧
    ((decBrandCascade s bid).brands.map Brand.id).Nodup ∧
    (∀ b ∈ (decBrandCascade s bid).brands,
      b.productCount = trueCount (decBrandCascade s bid) b.id + dlt b.id) ∧
    (∀ p ∈ (decBrandCascade s bid).products,
      ∃ b ∈ (decBrandCascade s bid).brands, b.id = p.brandId) := by
  cases hf : s.brands.find? (fun b => decide (b.id = bid)) with
  | none =>
      simp only [decBrandCascade, hf]
      refine ⟨trivial, hbnd, ?_, href⟩
      intro b hb
      have hne : b.id ≠ bid := by
        intro he
        apply List.find?_eq_none.mp hf b hb
        simp [he]
      have hc := hcnt b hb
      rw [if_neg hne, add_zero] at hc
      exact hc
  | some b0 =>
      have hb0m : b0 ∈ s.brands := List.mem_of_find?_eq_some hf
      have hb0id : b0.id = bid := by simpa using List.find?_some hf
      have hub : b0.productCount - 1 = trueCount s bid := by
        have hc := hcnt b0 hb0m
        rw [hb0id, if_pos rfl, hdlt] at hc
        omega
      simp only [decBrandCascade, hf]
      by_cases hle : b0.productCount - 1 ≤ 0
      · have htc0 : trueCount s bid = 0 :=
          le_antisymm (hub ▸ hle) (trueCountP_nonneg _ _)
        rw [if_pos (show ({ b0 with productCount := b0.productCount - 1 } :
            Brand).productCount ≤ 0 from hle)]
        have hnotbid : ∀ p ∈ s.products, p.brandId ≠ bid := by
          intro p hp he
          have hpos := trueCountP_pos_of_mem hp he
          rw [show trueCountP s.products bid = trueCount s bid from rfl, htc0] at hpos
          exact lt_irrefl 0 hpos
        refine ⟨rfl, ?_, ?_, ?_⟩
        · apply List.Nodup.sublist ((List.filter_sublist _).map Brand.id)
          rw [map_brand_id_of_pointwise]
          · exact hbnd
          · intro c hc
            by_cases h : c.id = bid
            · simp [h, hb0id]
            · simp [h]
        · intro b hb
          obtain ⟨hb1, hb2⟩ := List.mem_filter.mp hb
          obtain ⟨c0, hc0, hc0e⟩ := List.mem_map.mp hb1
          simp only [decide_eq_true_eq] at hb2
          by_cases h : c0.id = bid
          · rw [if_pos h] at hc0e
            rw [← hc0e] at hb2
            exact absurd hb0id hb2
          · rw [if_neg h] at hc0e
            subst hc0e
            have hc := hcnt c0 hc0
            rw [if_neg h, add_zero] at hc
            exact hc
        · intro p hp
          obtain ⟨b, hb, hbe⟩ := href p hp
          have hbne : b.id ≠ bid := by
            rw [hbe]
            exact hnotbid p hp
          refine ⟨b, ?_, hbe⟩
          apply List.mem_filter.mpr
          refine ⟨?_, by simp [hbne]⟩
          have hfb : (if b.id = bid then { b0 with productCount := b0.productCount - 1 }
              else b) = b := if_neg hbne
          rw [← hfb]
          exact List.mem_map_of_mem _ hb
      · rw [if_neg (show ¬ ({ b0 with productCount := b0.productCount - 1 } :
            Brand).productCount ≤ 0 from hle)]
        refine ⟨rfl, ?_, ?_, ?_⟩
        · rw [map_brand_id_of_pointwise]
          · exact hbnd
          · intro c hc
            by_cases h : c.id = bid
            · simp [h, hb0id]
            · simp [h]
        · intro b hb
          obtain ⟨c0, hc0, hc0e⟩ := List.mem_map.mp hb
          by_cases h : c0.id = bid
          · rw [if_pos h] at hc0e
            subst hc0e
            show b0.productCount - 1 = trueCount s b0.id + dlt b0.id
            rw [hb0id, hdlt, add_zero]
            exact hub
          · rw [if_neg h] at hc0e
            subst hc0e
            have hc := hcnt c0 hc0
            rw [if_neg h, add_zero] at hc
            exact hc
        · intro p hp
          obtain ⟨b, hb, hbe⟩ := href p hp
          refine ⟨if b.id = bid then { b0 with productCount := b0.productCount - 1 }
              else b, List.mem_map_of_mem _ hb, ?_⟩
          by_cases h : b.id = bid
          · rw [if_pos h]
            show b0.id = p.brandId
            rw [hb0id, ← h, hbe]
          · rw [if_neg h]
            exact hbe

theorem storeInv_createBrand {s : Store} (h : StoreInv s)
    (id : Nat) (name image : String) :
    StoreInv (createBrand s id name image) := by
  obtain ⟨hbnd, hpnd, hcnt, href⟩ := h
  unfold createBrand
  by_cases h1 : name = ""
  · rw [if_pos h1]
    exact ⟨hbnd, hpnd, hcnt, href⟩
  rw [if_neg h1]
  by_cases h2 : s.brands.any (fun b => decide (b.name = jsTrim name)) = true
  · rw [if_pos h2]
    exact ⟨hbnd, hpnd, hcnt, href⟩
  rw [if_neg h2]
  by_cases h3 : s.brands.any (fun b => decide (b.id = id)) = true
  · rw [if_pos h3]
    exact ⟨hbnd, hpnd, hcnt, href⟩
  rw [if_neg h3]
  have hfresh : ∀ b ∈ s.brands, b.id ≠ id := by
    intro b hb he
    apply h3
    rw [List.any_eq_true]
    exact ⟨b, hb, by simp [he]⟩
  refine ⟨?_, hpnd, ?_, ?_⟩
  · rw [List.map_append]
    apply List.Nodup.append hbnd (List.nodup_singleton _)
    rw [List.disjoint_singleton]
    intro hmem
    obtain ⟨b, hb, hbe⟩ := List.mem_map.mp hmem
    exact hfresh b hb hbe
  · intro b hb
    rcases List.mem_append.mp hb with hmem | hmem
    · rw [trueCount_brands_irrel]
      exact hcnt b hmem
    · simp only [List.mem_singleton] at hmem
      subst hmem
      show (0 : Int) = trueCountP s.products id
      have hnil : s.products.filter (fun p => decide (p.brandId = id)) = [] := by
        apply List.filter_eq_nil_iff.mpr
        intro p hp
        obtain ⟨b, hb, hbe⟩ := href p hp
        simp only [decide_eq_true_eq]
        intro he
        exact hfresh b hb (by rw [hbe, he])
      rw [trueCountP, hnil]
      rfl
  · intro p hp
    obtain ⟨b, hb, hbe⟩ := href p hp
    exact ⟨b, List.mem_append_left _ hb, hbe⟩

theorem storeInv_createProduct {s : Store} (h : StoreInv s)
    (id : Nat) (name : String) (brandId : Nat) (brandName : String) :
    StoreInv (createProduct s id name brandId brandName) := by
  obtain ⟨hbnd, hpnd, hcnt, href⟩ := h
  unfold createProduct
  by_cases h1 : name = "" ∨ brandName = ""
  · rw [if_pos h1]
    exact ⟨hbnd, hpnd, hcnt, href⟩
  rw [if_neg h1]
  cases hf : s.brands.find? (fun b => decide (b.id = brandId)) with
  | none => exact ⟨hbnd, hpnd, hcnt, href⟩
  | some b1 =>
      have hb1m : b1 ∈ s.brands := List.mem_of_find?_eq_some hf
      have hb1id : b1.id = brandId := by simpa using List.find?_some hf
      by_cases h2 : s.products.any (fun p => decide (p.id = id)) = true
      · rw [if_pos h2]
        exact ⟨hbnd, hpnd, hcnt, href⟩
      rw [if_neg h2]
      have hfresh : ∀ p ∈ s.products, p.id ≠ id := by
        intro p hp he
        apply h2
        rw [List.any_eq_true]
        exact ⟨p, hp, by simp [he]⟩
      apply incBrandCount_spec
      · exact hbnd
      · rw [List.map_append]
        apply List.Nodup.append hpnd (List.nodup_singleton _)
        rw [List.disjoint_singleton]
        intro hmem
        obtain ⟨p, hp, hpe⟩ := List.mem_map.mp hmem
        exact hfresh p hp hpe
      · intro b hb
        show b.productCount + _ = trueCountP (s.products ++ [_]) b.id
        rw [trueCountP_append, trueCountP_single]
        have hc := hcnt b hb
        by_cases he : b.id = brandId
        · rw [if_pos he, if_pos (show brandId = b.id from he.symm)]
          rw [hc]
          rfl
        · rw [if_neg he, if_neg (fun hcontra => he hcontra.symm)]
          rw [hc]
          rfl
      · intro p hp
        rcases List.mem_append.mp hp with hmem | hmem
        · exact href p hmem
        · simp only [List.mem_singleton] at hmem
          subst hmem
          exact ⟨b1, hb1m, hb1id⟩

theorem storeInv_deleteProduct {s : Store} (h : StoreInv s) (id : Nat) :
    StoreInv (deleteProduct s id) := by
  obtain ⟨hbnd, hpnd, hcnt, href⟩ := h
  unfold deleteProduct
  cases hf : s.products.find? (fun p => decide (p.id = id)) with
  | none => exact ⟨hbnd, hpnd, hcnt, href⟩
  | some q =>
      have hqm : q ∈ s.products := List.mem_of_find?_eq_some hf
      have hqid : q.id = id := by simpa using List.find?_some hf
      have hfiltereq : s.products.filter (fun p => decide (p.id ≠ id))
          = s.products.filter (fun p => decide (p.id ≠ q.id)) := by
        rw [hqid]
      obtain ⟨hprod, hnd2, hcnt2, href2⟩ :=
        decBrandCascade_spec
          { s with products := s.products.filter (fun p => decide (p.id ≠ id)) }
          q.brandId (fun _ => 0) hbnd
          (by
            intro b hb
            show b.productCount = trueCountP (s.products.filter
              (fun p => decide (p.id ≠ id))) b.id + _ + 0
            rw [hfiltereq, trueCountP_remove hpnd hqm]
            have hc := hcnt b hb
            rw [show trueCount s b.id = trueCountP s.products b.id from rfl] at hc
            by_cases he : b.id = q.brandId
            · rw [if_pos he, if_pos (show q.brandId = b.id from he.symm), hc]
              ring
            · rw [if_neg he, if_neg (fun hcontra => he hcontra.symm), hc]
              ring)
          rfl
          (by
            intro p hp
            exact href p (List.mem_filter.mp hp).1)
      refine ⟨hnd2, ?_, ?_, href2⟩
      · rw [hprod]
        exact List.Nodup.sublist ((List.filter_sublist _).map Product.id) hpnd
      · intro b hb
        have hc := hcnt2 b hb
        simpa using hc

theorem storeInv_updateProduct {s : Store} (h : StoreInv s)
    (id : Nat) (name : String) (brandId : Nat) (brandName : String) :
    StoreInv (updateProduct s id name brandId brandName) := by
  obtain ⟨hbnd, hpnd, hcnt, href⟩ := h
  unfold updateProduct
  by_cases h1 : name = "" ∨ brandName = ""
  · rw [if_pos h1]
    exact ⟨hbnd, hpnd, hcnt, href⟩
  rw [if_neg h1]
  cases hfb : s.brands.find? (fun b => decide (b.id = brandId)) with
  | none => exact ⟨hbnd, hpnd, hcnt, href⟩
  | some b1 =>
  have hb1m : b1 ∈ s.brands := List.mem_of_find?_eq_some hfb
  have hb1id : b1.id = brandId := by simpa using List.find?_some hfb
  cases hfp : s.products.find? (fun p => decide (p.id = id)) with
  | none => exact ⟨hbnd, hpnd, hcnt, href⟩
  | some q =>
  have hqm : q ∈ s.products := List.mem_of_find?_eq_some hfp
  have hqid : q.id = id := by simpa using List.find?_some hfp
  have hmapeq : s.products.map (fun p =>
        if p.id = id then
          { p with
            name := jsTrim name
            brandId := brandId
            brandName := jsTrim brandName }
        else p)
      = s.products.map (fun p =>
        if p.id = q.id then
          { q with
            name := jsTrim name
            brandId := brandId
            brandName := jsTrim brandName }
        else p) := by
    apply List.map_congr_left
    intro p hp
    by_cases hpe : p.id = id
    · have hpq : p = q :=
        List.inj_on_of_nodup_map hpnd hp hqm (by rw [hpe, hqid])
      rw [if_pos hpe, if_pos (by rw [hpe, hqid]), hpq]
    · rw [if_neg hpe, if_neg (fun hc => hpe (by rw [hc, hqid]))]
  dsimp only
  rw [hmapeq]
  have hs1nd : ((s.products.map (fun p =>
      if p.id = q.id then
        { q with name := jsTrim name, brandId := brandId, brandName := jsTrim brandName }
      else p)).map Product.id).Nodup := by
    rw [map_product_id_of_pointwise]
    · exact hpnd
    · intro p hp
      by_cases hpe : p.id = q.id
      · rw [if_pos hpe]
        exact hpe.symm
      · rw [if_neg hpe]
  have htc1 : ∀ bid2 : Nat, trueCountP (s.products.map (fun p =>
      if p.id = q.id then
        { q with name := jsTrim name, brandId := brandId, brandName := jsTrim brandName }
      else p)) bid2
      = trueCountP s.products bid2 - (if q.brandId = bid2 then 1 else 0)
          + (if brandId = bid2 then 1 else 0) := by
    intro bid2
    rw [trueCountP_update hpnd hqm _ bid2]
  by_cases hbrch : q.brandId ≠ brandId
  · rw [if_pos hbrch]
    obtain ⟨hprod, hnd2, hcnt2, href2⟩ :=
      decBrandCascade_spec
        { s with products := s.products.map (fun p =>
            if p.id = q.id then
              { q with
                name := jsTrim name
                brandId := brandId
                brandName := jsTrim brandName }
            else p) }
        q.brandId (fun n => if n = brandId then (-1 : Int) else 0) hbnd
        (by
          intro b hb
          have hc := hcnt b hb
          rw [show trueCount s b.id = trueCountP s.products b.id from rfl] at hc
          show b.productCount = trueCountP _ b.id + _ + _
          rw [htc1 b.id]
          dsimp only
          by_cases e1 : b.id = q.brandId
          · by_cases e2 : b.id = brandId
            · exact absurd (by rw [← e1, e2]) hbrch
            · rw [if_pos e1, if_pos (show q.brandId = b.id from e1.symm),
                if_neg (fun hc2 => e2 hc2.symm), if_neg e2, hc]
              ring
          · by_cases e2 : b.id = brandId
            · rw [if_neg e1, if_neg (fun hc2 => e1 hc2.symm),
                if_pos (show brandId = b.id from e2.symm), if_pos e2, hc]
              ring
            · rw [if_neg e1, if_neg (fun hc2 => e1 hc2.symm),
                if_neg (fun hc2 => e2 hc2.symm), if_neg e2, hc]
              ring)
        (by
          show (if q.brandId = brandId then (-1 : Int) else 0) = 0
          rw [if_neg hbrch])
        (by
          intro p hp
          obtain ⟨p0, hp0, hp0e⟩ := List.mem_map.mp hp
          by_cases hpe : p0.id = q.id
          · rw [if_pos hpe] at hp0e
            subst hp0e
            exact ⟨b1, hb1m, hb1id⟩
          · rw [if_neg hpe] at hp0e
            subst hp0e
            exact href p0 hp0)
    apply incBrandCount_spec
    · exact hnd2
    · rw [hprod]
      exact hs1nd
    · intro b hb
      have hc := hcnt2 b hb
      by_cases e2 : b.id = brandId
      · rw [if_pos e2] at hc ⊢
        omega
      · rw [if_neg e2] at hc ⊢
        omega
    · exact href2
  · rw [if_neg hbrch]
    push_neg at hbrch
    refine ⟨hbnd, hs1nd, ?_, ?_⟩
    · intro b hb
      have hc := hcnt b hb
      rw [show trueCount s b.id = trueCountP s.products b.id from rfl] at hc
      show b.productCount = trueCountP _ b.id
      rw [htc1 b.id, hbrch, hc]
      ring
    · intro p hp
      obtain ⟨p0, hp0, hp0e⟩ := List.mem_map.mp hp
      by_cases hpe : p0.id = q.id
      · rw [if_pos hpe] at hp0e
        subst hp0e
        exact ⟨b1, hb1m, hb1id⟩
      · rw [if_neg hpe] at hp0e
        subst hp0e
        exact href p0 hp0

theorem storeInv_applyOp {s : Store} (h : StoreInv s) (op : StoreOp) :
    StoreInv (applyOp s op) := by
  cases op with
  | createBrand id name image => exact storeInv_createBrand h id name image
  | createProduct id name brandId brandName =>
      exact storeInv_createProduct h id name brandId brandName
  | deleteProduct id => exact storeInv_deleteProduct h id
  | updateProduct id name brandId brandName =>
      exact storeInv_updateProduct h id name brandId brandName

theorem storeInv_runOps (ops : List StoreOp) : StoreInv (runOps ops) := by
  have hgen : ∀ (l : List StoreOp) (s : Store), StoreInv s →
      StoreInv (l.foldl applyOp s) := by
    intro l
    induction l with
    | nil => intro s hs; exact hs
    | cons op t ih =>
        intro s hs
        exact ih (applyOp s op) (storeInv_applyOp hs op)
  exact hgen ops ⟨[], []⟩ storeInv_empty

/-! ### The reconciliation sweep -/

theorem cleanup_fold_deletes (todo : List Brand) :
    ∀ st : Store,
      (∀ b ∈ todo, trueCountP st.products b.id = 0) →
      (todo.foldl cleanupStep st).products = st.products ∧
      (todo.foldl cleanupStep st).brands
        = st.brands.filter (fun c => decide (c.id ∉ todo.map Brand.id)) := by
  induction todo with
  | nil =>
      intro st h
      refine ⟨rfl, ?_⟩
      show st.brands = _
      exact (List.filter_eq_self.mpr (fun c hc => by simp)).symm
  | cons b t ih =>
      intro st h
      have hb0 := h b (List.mem_cons_self b t)
      have hlen : (st.products.filter (fun p => decide (p.brandId = b.id))).length = 0 := by
        have hb0i : ((st.products.filter
            (fun p => decide (p.brandId = b.id))).length : Int) = 0 := hb0
        exact_mod_cast hb0i
      have hstep : cleanupStep st b
          = { st with brands := st.brands.filter (fun c => decide (c.id ≠ b.id)) } := by
        unfold cleanupStep
        rw [if_pos hlen]
      rw [List.foldl_cons, hstep]
      obtain ⟨hp, hb2⟩ := ih
        { st with brands := st.brands.filter (fun c => decide (c.id ≠ b.id)) }
        (fun b2 hb2m => h b2 (List.mem_cons_of_mem b hb2m))
      refine ⟨hp, ?_⟩
      rw [hb2]
      show (st.brands.filter (fun c => decide (c.id ≠ b.id))).filter _ = _
      rw [List.filter_filter]
      apply List.filter_congr
      intro c hc
      by_cases h1 : c.id = b.id <;> by_cases h2 : c.id ∈ t.map Brand.id <;>
        simp [h1, h2]

theorem cleanup_of_inv {s : Store} (h : StoreInv s) :
    (cleanupEmptyBrands s).products = s.products ∧
    (cleanupEmptyBrands s).brands
      = s.brands.filter (fun b => decide (0 < b.productCount)) := by
  obtain ⟨hbnd, hpnd, hcnt, href⟩ := h
  obtain ⟨hp, hb⟩ := cleanup_fold_deletes
    (s.brands.filter (fun b => decide (b.productCount ≤ 0))) s
    (by
      intro b hbm
      obtain ⟨hbmem, hble⟩ := List.mem_filter.mp hbm
      simp only [decide_eq_true_eq] at hble
      have hc := hcnt b hbmem
      rw [show trueCount s b.id = trueCountP s.products b.id from rfl] at hc
      have h0 : trueCountP s.products b.id ≤ 0 := hc ▸ hble
      exact le_antisymm h0 (trueCountP_nonneg _ _))
  refine ⟨hp, ?_⟩
  rw [show (cleanupEmptyBrands s).brands
      = ((s.brands.filter (fun b => decide (b.productCount ≤ 0))).foldl
          cleanupStep s).brands from rfl]
  rw [hb]
  apply List.filter_congr
  intro c hc
  by_cases hpos : 0 < c.productCount
  · have hnot : c.id ∉ (s.brands.filter
        (fun b => decide (b.productCount ≤ 0))).map Brand.id := by
      intro hmem
      obtain ⟨b, hbm, hbe⟩ := List.mem_map.mp hmem
      obtain ⟨hbmem, hble⟩ := List.mem_filter.mp hbm
      simp only [decide_eq_true_eq] at hble
      have hbc : b = c := List.inj_on_of_nodup_map hbnd hbmem hc hbe
      rw [hbc] at hble
      omega
    simp [hnot, hpos]
  · have hle : c.productCount ≤ 0 := by omega
    have hmem : c.id ∈ (s.brands.filter
        (fun b => decide (b.productCount ≤ 0))).map Brand.id :=
      List.mem_map_of_mem _ (List.mem_filter.mpr ⟨hc, by simp [hle]⟩)
    simp [hmem, hpos]

theorem cleanup_fold_pos (todo : List Brand) :
    ∀ st : Store,
      (∀ c ∈ st.brands, 0 < c.productCount ∨ ∃ b ∈ todo, b.id = c.id) →
      ∀ c ∈ (todo.foldl cleanupStep st).brands, 0 < c.productCount := by
  induction todo with
  | nil =>
      intro st h c hc
      rcases h c hc with hpos | ⟨b, hbm, hbe⟩
      · exact hpos
      · cases hbm
  | cons b t ih =>
      intro st h
      rw [List.foldl_cons]
      apply ih
      intro c hc
      unfold cleanupStep at hc
      by_cases hz : (st.products.filter (fun p => decide (p.brandId = b.id))).length = 0
      · rw [if_pos hz] at hc
        obtain ⟨hcm, hcne⟩ := List.mem_filter.mp hc
        simp only [decide_eq_true_eq] at hcne
        rcases h c hcm with hpos | ⟨b2, hb2m, hb2e⟩
        · exact Or.inl hpos
        · rcases List.mem_cons.mp hb2m with hb2b | hb2t
          · subst hb2b
            exact absurd hb2e.symm hcne
          · exact Or.inr ⟨b2, hb2t, hb2e⟩
      · rw [if_neg hz] at hc
        obtain ⟨c0, hc0, hc0e⟩ := List.mem_map.mp hc
        by_cases he : c0.id = b.id
        · rw [if_pos he] at hc0e
          subst hc0e
          left
          show (0 : Int) < ((st.products.filter
            (fun p => decide (p.brandId = b.id))).length : Int)
          exact_mod_cast Nat.pos_of_ne_zero hz
        · rw [if_neg he] at hc0e
          subst hc0e
          rcases h c0 hc0 with hpos | ⟨b2, hb2m, hb2e⟩
          · exact Or.inl hpos
          · rcases List.mem_cons.mp hb2m with hb2b | hb2t
            · subst hb2b
              exact absurd hb2e.symm he
            · exact Or.inr ⟨b2, hb2t, hb2e⟩

theorem cleanup_pos (s : Store) :
    ∀ c ∈ (cleanupEmptyBrands s).brands, 0 < c.productCount := by
  apply cleanup_fold_pos
  intro c hc
  by_cases hpos : 0 < c.productCount
  · exact Or.inl hpos
  · right
    refine ⟨c, List.mem_filter.mpr ⟨hc, ?_⟩, rfl⟩
    simp only [decide_eq_true_eq]
    omega

/-! ### Claim theorems: referential-integrity maintenance -/

/-- C2: after one run of the reconciliation sweep on a state reached by
any complete, sequential run of brand/product operations, every
surviving brand's stored `productCount` equals the number of products
whose `brandId` references it, and no brand whose true product count is
0 remains. -/
theorem C2_sweep_restores_counts (ops : List StoreOp) (b : Brand)
    (hb : b ∈ (cleanupEmptyBrands (runOps ops)).brands) :
    b.productCount = trueCount (cleanupEmptyBrands (runOps ops)) b.id ∧
    trueCount (cleanupEmptyBrands (runOps ops)) b.id ≠ 0 := by
  obtain ⟨hbnd, hpnd, hcnt, href⟩ := storeInv_runOps ops
  obtain ⟨hp, hbr⟩ := cleanup_of_inv ⟨hbnd, hpnd, hcnt, href⟩
  rw [hbr] at hb
  obtain ⟨hbm, hbpos⟩ := List.mem_filter.mp hb
  simp only [decide_eq_true_eq] at hbpos
  have hc := hcnt b hbm
  have htceq : trueCount (cleanupEmptyBrands (runOps ops)) b.id
      = trueCount (runOps ops) b.id := by
    unfold trueCount
    rw [hp]
  rw [htceq, ← hc]
  exact ⟨rfl, by omega⟩

/-- C8: running the reconciliation sweep twice with no interleaved
mutations equals running it once, on every store state; and on a state
where every brand's stored count already equals its positive true count
the sweep changes nothing. -/
theorem C8_sweep_idempotent :
    (∀ s : Store, cleanupEmptyBrands (cleanupEmptyBrands s) = cleanupEmptyBrands s) ∧
    (∀ s : Store,
      (∀ b ∈ s.brands, b.productCount = trueCount s b.id ∧ 0 < b.productCount) →
      cleanupEmptyBrands s = s) := by
  constructor
  · intro s
    have hpos := cleanup_pos s
    show ((cleanupEmptyBrands s).brands.filter
        (fun b => decide (b.productCount ≤ 0))).foldl cleanupStep
        (cleanupEmptyBrands s) = cleanupEmptyBrands s
    have hnil : (cleanupEmptyBrands s).brands.filter
        (fun b => decide (b.productCount ≤ 0)) = [] := by
      apply List.filter_eq_nil_iff.mpr
      intro b hb
      have hp := hpos b hb
      simp only [decide_eq_true_eq]
      omega
    rw [hnil, List.foldl_nil]
  · intro s h
    show (s.brands.filter (fun b => decide (b.productCount ≤ 0))).foldl
        cleanupStep s = s
    have hnil : s.brands.filter (fun b => decide (b.productCount ≤ 0)) = [] := by
      apply List.filter_eq_nil_iff.mpr
      intro b hb
      obtain ⟨_, hp⟩ := h b hb
      simp only [decide_eq_true_eq]
      omega
    rw [hnil, List.foldl_nil]

/-- C2 witness: a concrete run (two brands, one product under the
first) followed by the sweep: the populated brand survives with an
accurate count. -/
theorem C2_witness :
    ({ id := 1, name := "Acme", productCount := 1,
       image := "https://via.placeholder.com/100x100?text=Acme",
       order := 0 } : Brand).productCount
      = trueCount (cleanupEmptyBrands (runOps
          [StoreOp.createBrand 1 "Acme" "", StoreOp.createBrand 2 "Beta" "",
           StoreOp.createProduct 10 "Widget" 1 "Acme"])) 1 ∧
    trueCount (cleanupEmptyBrands (runOps
          [StoreOp.createBrand 1 "Acme" "", StoreOp.createBrand 2 "Beta" "",
           StoreOp.createProduct 10 "Widget" 1 "Acme"])) 1 ≠ 0 :=
  C2_sweep_restores_counts
    [StoreOp.createBrand 1 "Acme" "", StoreOp.createBrand 2 "Beta" "",
     StoreOp.createProduct 10 "Widget" 1 "Acme"]
    { id := 1, name := "Acme", productCount := 1,
      image := "https://via.placeholder.com/100x100?text=Acme", order := 0 }
    (by decide)

/-- C8 witness: the idempotence theorem applied at a concrete drifted
store, and the no-op part at a concrete calibrated store. -/
theorem C8_witness :
    cleanupEmptyBrands (cleanupEmptyBrands
      ⟨[⟨1, "A", 0, "", 0⟩, ⟨2, "B", -3, "", 0⟩, ⟨3, "C", 1, "", 0⟩],
       [⟨10, "P", 2, "B", 0⟩]⟩)
      = cleanupEmptyBrands
      ⟨[⟨1, "A", 0, "", 0⟩, ⟨2, "B", -3, "", 0⟩, ⟨3, "C", 1, "", 0⟩],
       [⟨10, "P", 2, "B", 0⟩]⟩ ∧
    cleanupEmptyBrands ⟨[⟨1, "A", 1, "", 0⟩], [⟨10, "P", 1, "A", 0⟩]⟩
      = ⟨[⟨1, "A", 1, "", 0⟩], [⟨10, "P", 1, "A", 0⟩]⟩ :=
  ⟨C8_sweep_idempotent.1 _,
   C8_sweep_idempotent.2 ⟨[⟨1, "A", 1, "", 0⟩], [⟨10, "P", 1, "A", 0⟩]⟩ (by decide)⟩

/-- C7: deleting an existing product whose owning brand record exists
decrements that brand's stored count by one and deletes the brand record
exactly when the decremented count is ≤ 0; and the spec's scenario
(create Acme, create Widget under it, delete Widget) ends with no brand
records at all. -/
theorem C7_delete_decrements_and_cascades :
    (∀ (s : Store) (pid : Nat) (q : Product) (b : Brand),
      s.products.find? (fun p => decide (p.id = pid)) = some q →
      s.brands.find? (fun c => decide (c.id = q.brandId)) = some b →
      ((b.productCount - 1 ≤ 0 →
          ∀ c ∈ (deleteProduct s pid).brands, c.id ≠ q.brandId) ∧
       (0 < b.productCount - 1 →
          ∃ c ∈ (deleteProduct s pid).brands,
            c.id = q.brandId ∧ c.productCount = b.productCount - 1))) ∧
    (runOps [StoreOp.createBrand 1 "Acme" "",
             StoreOp.createProduct 10 "Widget" 1 "Acme",
             StoreOp.deleteProduct 10]).brands = [] := by
  constructor
  · intro s pid q b hfp hfb
    have hkey : deleteProduct s pid
        = decBrandCascade
            { s with products := s.products.filter (fun p => decide (p.id ≠ pid)) }
            q.brandId := by
      unfold deleteProduct
      rw [hfp]
    rw [hkey]
    simp only [decBrandCascade, hfb]
    by_cases hle : b.productCount - 1 ≤ 0
    · rw [if_pos (show ({ b with productCount := b.productCount - 1 } :
          Brand).productCount ≤ 0 from hle)]
      constructor
      · intro _ c hc
        have hc2 := (List.mem_filter.mp hc).2
        simpa using hc2
      · intro hlt
        omega
    · rw [if_neg (show ¬ ({ b with productCount := b.productCount - 1 } :
          Brand).productCount ≤ 0 from hle)]
      constructor
      · intro hcontra
        exact absurd hcontra hle
      · intro _
        refine ⟨{ b with productCount := b.productCount - 1 }, ?_, ?_, rfl⟩
        · have hbm : b ∈ s.brands := List.mem_of_find?_eq_some hfb
          have hbid : b.id = q.brandId := by simpa using List.find?_some hfb
          have hin := List.mem_map_of_mem (fun c =>
            if c.id = q.brandId then { b with productCount := b.productCount - 1 }
            else c) hbm
          dsimp only at hin
          rw [if_pos hbid] at hin
          exact hin
        · have hbid : b.id = q.brandId := by simpa using List.find?_some hfb
          exact hbid
  · rfl

/-- C7 witness: the theorem applied at `c7store` (count 2, so the brand
survives with count 1), discharging both `find?` hypotheses. -/
theorem C7_witness :
    (((2 : Int) - 1 ≤ 0 →
        ∀ c ∈ (deleteProduct c7store 10).brands, c.id ≠ 1) ∧
     (0 < (2 : Int) - 1 →
        ∃ c ∈ (deleteProduct c7store 10).brands,
          c.id = 1 ∧ c.productCount = 2 - 1)) ∧
    (runOps [StoreOp.createBrand 1 "Acme" "",
             StoreOp.createProduct 10 "Widget" 1 "Acme",
             StoreOp.deleteProduct 10]).brands = [] :=
  ⟨C7_delete_decrements_and_cascades.1 c7store 10
      ⟨10, "Widget", 1, "Acme", 0⟩ ⟨1, "Acme", 2, "img", 0⟩ (by decide) (by decide),
   C7_delete_decrements_and_cascades.2⟩

/-- C10: the brand-update operation only ever touches the target brand's
`name` and `image`: the returned brand list is a pointwise map that
preserves `id`, `productCount` and `order` of every brand and leaves
every brand with a different id unchanged, and the product collection is
untouched — on the success path as well as on every rejection path. -/
theorem C10_brand_update_frame (s : Store) (id : Nat)
    (name image : Option String) :
    (updateBrand s id name image).products = s.products ∧
    ∃ f : Brand → Brand,
      (updateBrand s id name image).brands = s.brands.map f ∧
      ∀ b : Brand, (f b).id = b.id ∧ (f b).productCount = b.productCount ∧
        (f b).order = b.order ∧ (b.id ≠ id → f b = b) := by
  have hid : (updateBrand s id name image) = s →
      (updateBrand s id name image).products = s.products ∧
      ∃ f : Brand → Brand,
        (updateBrand s id name image).brands = s.brands.map f ∧
        ∀ b : Brand, (f b).id = b.id ∧ (f b).productCount = b.productCount ∧
          (f b).order = b.order ∧ (b.id ≠ id → f b = b) := by
    intro he
    rw [he]
    refine ⟨rfl, fun b => b, (List.map_id s.brands).symm, ?_⟩
    intro b
    exact ⟨rfl, rfl, rfl, fun _ => rfl⟩
  cases name with
  | none => exact hid rfl
  | some nm =>
      by_cases h1 : nm = ""
      · exact hid (by unfold updateBrand; dsimp only; rw [if_pos h1])
      cases hf : s.brands.find? (fun b => decide (b.id = id)) with
      | none =>
          exact hid (by unfold updateBrand; dsimp only; rw [if_neg h1, hf])
      | some brand =>
          cases hf2 : s.brands.find? (fun b =>
              decide (b.name = jsTrim nm ∧ b.id ≠ id)) with
          | some other =>
              exact hid (by unfold updateBrand; dsimp only; rw [if_neg h1, hf, hf2])
          | none =>
              have hval : updateBrand s id (some nm) image
                  = { s with brands := s.brands.map (brandUpdater id nm image brand) } := by
                unfold updateBrand
                dsimp only
                rw [if_neg h1, hf]
                dsimp only
                rw [hf2]
              refine ⟨?_, brandUpdater id nm image brand, ?_, ?_⟩
              · rw [hval]
              · rw [hval]
              · intro b
                unfold brandUpdater
                by_cases he : b.id = id
                · rw [if_pos he]
                  exact ⟨rfl, rfl, rfl, fun hne => absurd he hne⟩
                · rw [if_neg he]
                  exact ⟨rfl, rfl, rfl, fun _ => rfl⟩

/-- C10 witness: the frame theorem applied at a concrete store and
update request. -/
theorem C10_witness :
    (updateBrand ⟨[⟨1, "A", 2, "i", 5⟩, ⟨2, "B", 3, "j", 6⟩],
        [⟨10, "P", 1, "A", 0⟩]⟩ 1 (some "New") (some "k")).products
      = [⟨10, "P", 1, "A", 0⟩] ∧
    ∃ f : Brand → Brand,
      (updateBrand ⟨[⟨1, "A", 2, "i", 5⟩, ⟨2, "B", 3, "j", 6⟩],
          [⟨10, "P", 1, "A", 0⟩]⟩ 1 (some "New") (some "k")).brands
        = [⟨1, "A", 2, "i", 5⟩, ⟨2, "B", 3, "j", 6⟩].map f ∧
      ∀ b : Brand, (f b).id = b.id ∧ (f b).productCount = b.productCount ∧
        (f b).order = b.order ∧ (b.id ≠ 1 → f b = b) :=
  C10_brand_update_frame
    ⟨[⟨1, "A", 2, "i", 5⟩, ⟨2, "B", 3, "j", 6⟩], [⟨10, "P", 1, "A", 0⟩]⟩
    1 (some "New") (some "k")

/-! ### Claim theorems: retention sweep -/

/-- C3: the retention sweep deletes exactly those candidate orders whose
status is Completed and whose date, parsed as day/month/year, is on or
before 31 days prior to the current date; the deleted count matches; and
a Pending order is never deleted.  Orders failing either condition (or
with an unparseable date) are silently kept. -/
theorem C3_retention_sweep (orders : List Order) (orderIds : List Nat)
    (todayDay : Int) (todayMinute : Nat)
    (hmin : todayMinute < 1440)
    (hnd : (orders.map Order.id).Nodup) :
    (cleanupOldCompleted orders orderIds todayDay todayMinute).1
      = orders.filter (fun o => !(decide (o.id ∈ orderIds) &&
          (decide (o.status = OrderStatus.Completed) &&
          (match orderDateDays o.date with
           | some d => decide (d ≤ todayDay - 31)
           | none => false)))) ∧
    (cleanupOldCompleted orders orderIds todayDay todayMinute).2
      = (orders.filter (fun o => decide (o.id ∈ orderIds) &&
          (decide (o.status = OrderStatus.Completed) &&
          (match orderDateDays o.date with
           | some d => decide (d ≤ todayDay - 31)
           | none => false)))).length ∧
    (∀ o ∈ orders, o.status = OrderStatus.Pending →
      o ∈ (cleanupOldCompleted orders orderIds todayDay todayMinute).1) := by
  have harith : ∀ d : Int,
      (decide (d * 1440 ≤ (todayDay - 31) * 1440 + (todayMinute : Int)))
        = (decide (d ≤ todayDay - 31)) := by
    intro d
    rw [decide_eq_decide]
    omega
  have hP : ∀ o : Order,
      (decide (o.status = OrderStatus.Completed) &&
        (match orderDateDays o.date with
         | some d => decide (d * 1440 ≤ (todayDay - 31) * 1440 + (todayMinute : Int))
         | none => false))
      = (decide (o.status = OrderStatus.Completed) &&
        (match orderDateDays o.date with
         | some d => decide (d ≤ todayDay - 31)
         | none => false)) := by
    intro o
    cases horder : orderDateDays o.date with
    | none => simp only [horder]
    | some d =>
        simp only [horder]
        rw [harith d]
  have hmem : ∀ o ∈ orders,
      (o.id ∈ ((orders.filter (fun o2 => decide (o2.id ∈ orderIds))).filter (fun o2 =>
          decide (o2.status = OrderStatus.Completed) &&
          (match orderDateDays o2.date with
           | some d => decide (d * 1440 ≤ (todayDay - 31) * 1440 + (todayMinute : Int))
           | none => false))).map (fun o2 => o2.id))
        ↔ (decide (o.id ∈ orderIds) &&
            (decide (o.status = OrderStatus.Completed) &&
            (match orderDateDays o.date with
             | some d => decide (d ≤ todayDay - 31)
             | none => false))) = true := by
    intro o ho
    constructor
    · intro hx
      obtain ⟨o2, ho2, ho2e⟩ := List.mem_map.mp hx
      obtain ⟨ho2a, ho2P⟩ := List.mem_filter.mp ho2
      obtain ⟨ho2m, ho2ids⟩ := List.mem_filter.mp ho2a
      have heq : o2 = o := List.inj_on_of_nodup_map hnd ho2m ho ho2e
      subst heq
      rw [Bool.and_eq_true]
      refine ⟨ho2ids, ?_⟩
      rw [← hP o2]
      exact ho2P
    · intro hE
      rw [Bool.and_eq_true] at hE
      obtain ⟨hids, hPd⟩ := hE
      apply List.mem_map_of_mem (fun o2 : Order => o2.id)
      apply List.mem_filter.mpr
      refine ⟨List.mem_filter.mpr ⟨ho, hids⟩, ?_⟩
      rw [hP o]
      exact hPd
  have hfilter_eq : orders.filter (fun o =>
        decide (o.id ∉ ((orders.filter (fun o2 => decide (o2.id ∈ orderIds))).filter
          (fun o2 =>
            decide (o2.status = OrderStatus.Completed) &&
            (match orderDateDays o2.date with
             | some d => decide (d * 1440 ≤ (todayDay - 31) * 1440 + (todayMinute : Int))
             | none => false))).map (fun o2 => o2.id)))
      = orders.filter (fun o => !(decide (o.id ∈ orderIds) &&
          (decide (o.status = OrderStatus.Completed) &&
          (match orderDateDays o.date with
           | some d => decide (d ≤ todayDay - 31)
           | none => false)))) := by
    apply List.filter_congr
    intro o ho
    have h2 := hmem o ho
    by_cases hm : o.id ∈ ((orders.filter (fun o2 => decide (o2.id ∈ orderIds))).filter
        (fun o2 =>
          decide (o2.status = OrderStatus.Completed) &&
          (match orderDateDays o2.date with
           | some d => decide (d * 1440 ≤ (todayDay - 31) * 1440 + (todayMinute : Int))
           | none => false))).map (fun o2 => o2.id)
    · have hE := h2.mp hm
      rw [hE, Bool.not_true]
      exact decide_eq_false_iff_not.mpr (not_not_intro hm)
    · have hE : ¬ ((decide (o.id ∈ orderIds) &&
          (decide (o.status = OrderStatus.Completed) &&
          (match orderDateDays o.date with
           | some d => decide (d ≤ todayDay - 31)
           | none => false))) = true) := fun he => hm (h2.mpr he)
      have hEf := eq_false_of_ne_true hE
      rw [hEf, Bool.not_false]
      exact decide_eq_true hm
  refine ⟨hfilter_eq, ?_, ?_⟩
  · show orders.length - (orders.filter _).length = _
    rw [hfilter_eq]
    have hpart := List.length_eq_length_filter_add (l := orders)
      (fun o => decide (o.id ∈ orderIds) &&
        (decide (o.status = OrderStatus.Completed) &&
        (match orderDateDays o.date with
         | some d => decide (d ≤ todayDay - 31)
         | none => false)))
    simp only at hpart
    omega
  · intro o ho hst
    show o ∈ orders.filter _
    rw [hfilter_eq]
    apply List.mem_filter.mpr
    refine ⟨ho, ?_⟩
    simp [hst]

/-- C3 witness: the characterization applied on 2025-12-31 (day 20453)
at 10:00 to three candidates: the Completed order dated exactly 31 days
earlier is deleted; the Completed order dated 30 days earlier and the
Pending order survive. -/
theorem C3_witness :
    (cleanupOldCompleted [c3order1, c3order2, c3order3] [1, 2, 3] 20453 600).1
      = [c3order2, c3order3] ∧
    (cleanupOldCompleted [c3order1, c3order2, c3order3] [1, 2, 3] 20453 600).2 = 1 := by
  have h := C3_retention_sweep [c3order1, c3order2, c3order3] [1, 2, 3] 20453 600
    (by decide) (by decide)
  refine ⟨?_, ?_⟩
  · rw [h.1]
    decide
  · rw [h.2.1]
    decide

/-! ### Claim theorems: order-number allocation -/

set_option maxRecDepth 10000 in
theorem fmt_lt_succ : ∀ i : Nat, i < 998 →
    strLtB (fmtOrderNumber (i + 1)) (fmtOrderNumber (i + 2)) = true := by
  decide

set_option maxRecDepth 10000 in
theorem splitSuffixNext_fmt : ∀ i : Nat, i < 999 →
    splitSuffixNext (fmtOrderNumber (i + 1)) = some (i + 2) := by
  decide

theorem lexMax_ordSeq : ∀ n : Nat, 1 ≤ n → n ≤ 999 →
    lexMaxOrderNumber (ordSeq n) = some (fmtOrderNumber n) := by
  intro n
  induction n with
  | zero => intro h1 h2; omega
  | succ m ih =>
      intro h1 h2
      by_cases hm : m = 0
      · subst hm
        rfl
      · have h1m : 1 ≤ m := Nat.one_le_iff_ne_zero.mpr hm
        have ihm := ih h1m (by omega)
        have hseq : ordSeq (m + 1) = ordSeq m ++ [fmtOrderNumber (m + 1)] := by
          unfold ordSeq
          rw [List.range_succ, List.map_append]
          rfl
        have hlt : strLtB (fmtOrderNumber m) (fmtOrderNumber (m + 1)) = true := by
          have hstep := fmt_lt_succ (m - 1) (by omega)
          rw [show m - 1 + 1 = m from by omega,
            show m - 1 + 2 = m + 1 from by omega] at hstep
          exact hstep
        rw [hseq]
        unfold lexMaxOrderNumber
        rw [List.foldl_append]
        rw [show (ordSeq m).foldl (fun acc s =>
            match acc with
            | none => some s
            | some t => if strLtB t s then some s else some t) none
          = lexMaxOrderNumber (ordSeq m) from rfl, ihm]
        simp only [List.foldl_cons, List.foldl_nil, hlt, if_true]

/-- C4, counterexample: with ORD-999 and ORD-1000 stored, the code's
candidate (from the lexicographically greatest stored number, ORD-999)
is ORD-1000 — an already-used number — while the claim's formula (one
plus the highest numeric suffix, 1000) demands ORD-1001. -/
theorem C4_counterexample :
    deriveCandidate ["ORD-999", "ORD-1000"] = "ORD-1000" ∧
    claimNumericCandidate ["ORD-999", "ORD-1000"] = "ORD-1001" ∧
    deriveCandidate ["ORD-999", "ORD-1000"]
      ≠ claimNumericCandidate ["ORD-999", "ORD-1000"] := by
  decide

/-- C4, amended: each derive-and-retry attempt computes its candidate as
one plus the numeric suffix of the lexicographically greatest stored
orderNumber (which equals the numeric maximum only while all stored
numbers have equal digit width); in particular, after ORD-001 … ORD-N
the first candidate is ORD-(N+1) for every 1 ≤ N ≤ 999. -/
theorem C4_amended_candidate (n : Nat) (h1 : 1 ≤ n) (h2 : n ≤ 999) :
    deriveCandidate (ordSeq n) = fmtOrderNumber (n + 1) := by
  unfold deriveCandidate nextNumberJS
  rw [lexMax_ordSeq n h1 h2]
  have hne : fmtOrderNumber n ≠ "" := by
    intro he
    have hd := congrArg String.data he
    rw [show (fmtOrderNumber n).data
        = "ORD-".data ++ (padStart3 (Nat.repr n)).data from rfl] at hd
    exact absurd hd (by simp)
  dsimp only
  rw [if_neg hne]
  have hparse := splitSuffixNext_fmt (n - 1) (by omega)
  rw [show n - 1 + 1 = n from by omega, show n - 1 + 2 = n + 1 from by omega] at hparse
  rw [hparse]
  rfl

/-- C4 witness: the amended theorem at N = 5 evaluates to ORD-006. -/
theorem C4_witness :
    deriveCandidate (ordSeq 5) = fmtOrderNumber 6 ∧ fmtOrderNumber 6 = "ORD-006" :=
  ⟨C4_amended_candidate 5 (by decide) (by decide), by decide⟩

theorem deriveAttempts_exhaust (env : Nat → List String) :
    ∀ fuel i : Nat,
      (∀ j, i ≤ j → j < i + fuel → deriveCandidate (env j) ∈ env j) →
      deriveAttempts env fuel i = Except.error AllocError.exhausted := by
  intro fuel
  induction fuel with
  | zero => intro i h; rfl
  | succ f ih =>
      intro i h
      simp only [deriveAttempts]
      rw [if_pos (h i (le_refl i) (by omega))]
      exact ih (i + 1) (fun j hj1 hj2 => h j (by omega) (by omega))

theorem deriveAttempts_ok (env : Nat → List String) :
    ∀ fuel i j c, deriveAttempts env fuel i = Except.ok (j, c) →
      i ≤ j ∧ j < i + fuel ∧ c ∉ env j := by
  intro fuel
  induction fuel with
  | zero =>
      intro i j c h
      exact absurd h (by simp [deriveAttempts])
  | succ f ih =>
      intro i j c h
      simp only [deriveAttempts] at h
      by_cases hc : deriveCandidate (env i) ∈ env i
      · rw [if_pos hc] at h
        obtain ⟨ha, hb, h3⟩ := ih (i + 1) j c h
        exact ⟨by omega, by omega, h3⟩
      · rw [if_neg hc] at h
        have h4 := Except.ok.inj h
        have hi : i = j := congrArg Prod.fst h4
        have hcv : deriveCandidate (env i) = c := congrArg Prod.snd h4
        subst hi
        rw [← hcv]
        exact ⟨le_refl i, by omega, hc⟩

theorem randomAttempts_exhaust (env : Nat → List String) (tokens : Nat → String) :
    ∀ fuel i : Nat,
      (∀ j, i ≤ j → j < i + fuel → generateOrderNumber (tokens j) ∈ env j) →
      randomAttempts env tokens fuel i = Except.error AllocError.exhausted := by
  intro fuel
  induction fuel with
  | zero => intro i h; rfl
  | succ f ih =>
      intro i h
      simp only [randomAttempts]
      rw [if_pos (h i (le_refl i) (by omega))]
      exact ih (i + 1) (fun j hj1 hj2 => h j (by omega) (by omega))

theorem randomAttempts_ok (env : Nat → List String) (tokens : Nat → String) :
    ∀ fuel i j c, randomAttempts env tokens fuel i = Except.ok (j, c) →
      i ≤ j ∧ j < i + fuel ∧ c ∉ env j := by
  intro fuel
  induction fuel with
  | zero =>
      intro i j c h
      exact absurd h (by simp [randomAttempts])
  | succ f ih =>
      intro i j c h
      simp only [randomAttempts] at h
      by_cases hc : generateOrderNumber (tokens i) ∈ env i
      · rw [if_pos hc] at h
        obtain ⟨ha, hb, h3⟩ := ih (i + 1) j c h
        exact ⟨by omega, by omega, h3⟩
      · rw [if_neg hc] at h
        have h4 := Except.ok.inj h
        have hi : i = j := congrArg Prod.fst h4
        have hcv : generateOrderNumber (tokens i) = c := congrArg Prod.snd h4
        subst hi
        rw [← hcv]
        exact ⟨le_refl i, by omega, hc⟩

/-- C5: if every attempt up to the bound (10 for derive-and-retry, 5
for random-with-retry) hits a uniqueness conflict, the allocation
returns the allocation-exhausted error and persists nothing — the error
value carries no order and no placeholder number; and whenever an
allocation succeeds, the persisted orderNumber was absent from the
store at the moment it was saved, so no duplicate is ever persisted. -/
theorem C5_exhaustion_and_uniqueness :
    (∀ env : Nat → List String,
      (∀ i, i < 10 → deriveCandidate (env i) ∈ env i) →
      deriveAlloc env = Except.error AllocError.exhausted) ∧
    (∀ (env : Nat → List String) (i : Nat) (c : String),
      deriveAlloc env = Except.ok (i, c) → i < 10 ∧ c ∉ env i) ∧
    (∀ (env : Nat → List String) (tokens : Nat → String),
      (∀ i, i < 5 → generateOrderNumber (tokens i) ∈ env i) →
      randomAlloc env tokens = Except.error AllocError.exhausted) ∧
    (∀ (env : Nat → List String) (tokens : Nat → String) (i : Nat) (c : String),
      randomAlloc env tokens = Except.ok (i, c) → i < 5 ∧ c ∉ env i) := by
  refine ⟨?_, ?_, ?_, ?_⟩
  · intro env h
    exact deriveAttempts_exhaust env 10 0 (fun j hj1 hj2 => h j (by omega))
  · intro env i c h
    obtain ⟨ha, hb, hc⟩ := deriveAttempts_ok env 10 0 i c h
    exact ⟨by omega, hc⟩
  · intro env tokens h
    exact randomAttempts_exhaust env tokens 5 0 (fun j hj1 hj2 => h j (by omega))
  · intro env tokens i c h
    obtain ⟨ha, hb, hc⟩ := randomAttempts_ok env tokens 5 0 i c h
    exact ⟨by omega, hc⟩

/-- C5 witness: with ORD-999 and ORD-1000 stored the derive-and-retry
candidate collides on every one of its 10 attempts and the allocation
reports exhaustion; likewise for the random allocator when every random
token is already taken. -/
theorem C5_witness :
    deriveAlloc (fun _ => ["ORD-999", "ORD-1000"])
      = Except.error AllocError.exhausted ∧
    randomAlloc (fun _ => ["ORD-AB12CD34"]) (fun _ => "AB12CD34")
      = Except.error AllocError.exhausted :=
  ⟨C5_exhaustion_and_uniqueness.1 (fun _ => ["ORD-999", "ORD-1000"])
      (fun i _ => by
        show deriveCandidate ["ORD-999", "ORD-1000"] ∈ ["ORD-999", "ORD-1000"]
        decide),
   C5_exhaustion_and_uniqueness.2.2.1 (fun _ => ["ORD-AB12CD34"])
      (fun _ => "AB12CD34") (fun i _ => by
        show generateOrderNumber "AB12CD34" ∈ ["ORD-AB12CD34"]
        decide)⟩

end Backend
